import Mathlib

/-!
Verification of the field-selection and converter core of a typed
tracker-API client (modules `helpers.py`, `types.py`, `entities.py`).

Python runtime values that flow through the converter are embedded as the
inductive `Value`; Python dicts keep insertion order, so they are embedded
as association lists whose update preserves the position of an existing key
and appends a new key at the end.  Timezone-aware `datetime` objects are
embedded by their epoch microseconds (UTC); `date` objects by their days
since 1970-01-01.  Fallible Python code returns `Except`, with the error
string naming the Python exception class it embeds.
-/

/-- Python runtime value as seen by the converter: JSON scalars plus the
`datetime`/`date` objects that the custom JSON encoder rewrites.  `dt usec`
is a timezone-aware datetime at `usec` microseconds since the Unix epoch
(UTC); `date day` is a calendar date at `day` days since 1970-01-01. -/
inductive Value where
  | null
  | bool (b : Bool)
  | int (n : Int)
  | float (q : Rat)
  | str (s : String)
  | dt (usec : Int)
  | date (day : Int)
  | list (xs : List Value)
  | dict (fields : List (String × Value))

/-- Python runtime type tag, the result of `type(x)` as far as
`deep_update`'s type check distinguishes values (`bool` is distinct from
`int` under `type(...)` equality even though `bool` subclasses `int`). -/
inductive PyTy where
  | tNone | tBool | tInt | tFloat | tStr | tDatetime | tDate | tList | tDict
deriving DecidableEq, Repr

/-- Embeds Python `type(x)` on converter values. -/
def pyTypeOf : Value → PyTy
  | .null => .tNone
  | .bool _ => .tBool
  | .int _ => .tInt
  | .float _ => .tFloat
  | .str _ => .tStr
  | .dt _ => .tDatetime
  | .date _ => .tDate
  | .list _ => .tList
  | .dict _ => .tDict

/-- Python `d[k]` read on an insertion-ordered dict (first matching key). -/
def lookupD : List (String × Value) → String → Option Value
  | [], _ => none
  | (k, v) :: rest, key => if k = key then some v else lookupD rest key

/-- Python `d[k] = v` on a dict whose key `k` is already present: the value
is replaced in place, keeping the key's position. -/
def setD : List (String × Value) → String → Value → List (String × Value)
  | [], _, _ => []
  | (k, v) :: rest, key, newV =>
    if k = key then (k, newV) :: rest else (k, v) :: setD rest key newV

mutual

/-- Embeds one call `deep_update(dest, source)` as it occurs element-wise on
sequence members inside `deep_update` (`starmap(deep_update, zip(...))`),
where the arguments are arbitrary values: a non-dict `source` fails on
`source.items()` (AttributeError); a non-dict `dest` with a non-empty dict
`source` fails on `key in result` / `result[key] = value` (TypeError),
while an empty dict `source` returns the copy of `dest` unchanged. -/
def deepUpdateVal : Value → Value → Except String Value
  | dest, .dict s =>
    match dest with
    | .dict d => do pure (.dict (← mergeInto d s))
    | other =>
      match s with
      | [] => pure other
      | _ :: _ => throw "TypeError: destination does not support string keys"
  | _, _ => throw "AttributeError: source mapping has no items"

/-- Embeds the `for key, value in source.items()` loop of `deep_update`,
threading the updated `result` dict through the items of one source. -/
def mergeInto : List (String × Value) → List (String × Value) →
    Except String (List (String × Value))
  | d, [] => pure d
  | d, (k, v) :: rest => do mergeInto (← mergeStep d k v) rest

/-- Embeds one iteration of the `deep_update` loop body for entry
`(k, v)`: absent keys are appended, present keys are type-checked, then
dict values merge recursively, list values merge element-wise after a
length check, and any other value overwrites. -/
def mergeStep (d : List (String × Value)) (k : String) (v : Value) :
    Except String (List (String × Value)) :=
  match lookupD d k with
  | none => pure (d ++ [(k, v)])
  | some old =>
    if pyTypeOf old != pyTypeOf v then
      throw "TypeError: destination type differs from source type"
    else
      match old, v with
      | .dict dOld, .dict s => do pure (setD d k (.dict (← mergeInto dOld s)))
      | .list xs, .list ys =>
        if xs.length != ys.length then
          throw "TypeError: destination list length differs from source list length"
        else do pure (setD d k (.list (← zipMerge xs ys)))
      | _, _ => pure (setD d k v)

/-- Embeds `list(starmap(deep_update, zip(xs, ys)))`: element-wise
`deep_update`, truncating at the shorter list exactly as `zip` does (the
caller has already checked the lengths match). -/
def zipMerge : List Value → List Value → Except String (List Value)
  | x :: xs, y :: ys => do pure ((← deepUpdateVal x y) :: (← zipMerge xs ys))
  | _, _ => pure []

end

/-- Embeds `deep_update(dest, *mappings)`: the sources are folded into a
(deep copy of) `dest` one after the other. -/
def deep_update (dest : List (String × Value)) :
    List (List (String × Value)) → Except String (List (String × Value))
  | [] => pure dest
  | m :: rest => do deep_update (← mergeInto dest m) rest

/-!
FieldSelector (`model_to_field_names`).  The pydantic JSON schema that the
source walks by reflection is embedded as an explicit descriptor: a model
schema is its `properties` list (field wire name, in declaration order,
paired with a field type descriptor), and a field type descriptor is a
scalar (no sub-schema), a `$ref` to another model schema (resolved, since
the schemas of this domain form a DAG), an array of a type, or an
`anyOf`/`allOf`/`oneOf` list of sub-types.
-/

/-- Field type descriptor as `model_to_field_names.schema_to_fields` reads
it off the pydantic JSON schema. -/
inductive FType where
  | scalar
  | ref (props : List (String × FType))
  | arr (item : FType)
  | unionOf (subTypes : List FType)

mutual

/-- Embeds `type_to_fields`: a scalar yields the empty field tree, a
reference yields the referenced schema's tree, an array yields its item
type's tree, and a union deep-merges the trees of all sub-types. -/
def typeToFields : FType → Except String (List (String × Value))
  | .scalar => pure []
  | .ref props => schemaToFields props
  | .arr item => typeToFields item
  | .unionOf subTypes => do deep_update [] (← typeToFieldsList subTypes)

/-- Embeds `map(type_to_fields, sub_types)`. -/
def typeToFieldsList : List FType → Except String (List (List (String × Value)))
  | [] => pure []
  | t :: ts => do pure ((← typeToFields t) :: (← typeToFieldsList ts))

/-- Embeds `schema_to_fields`: each property name is mapped to the field
tree of its type, preserving declaration order. -/
def schemaToFields : List (String × FType) → Except String (List (String × Value))
  | [] => pure []
  | (name, t) :: rest => do
    pure ((name, Value.dict (← typeToFields t)) :: (← schemaToFields rest))

end

mutual

/-- Embeds `fields_to_csv`: fields joined by commas, a field with a
non-empty sub-tree rendered as `name(subfields)`. -/
def fieldsToCsv : List (String × Value) → String
  | [] => ""
  | [(name, v)] => fieldCsvEntry name v
  | (name, v) :: rest => fieldCsvEntry name v ++ "," ++ fieldsToCsv rest

/-- Renders one field of the tree for `fields_to_csv`. -/
def fieldCsvEntry (name : String) (v : Value) : String :=
  match v with
  | .dict fs =>
    let sub := fieldsToCsv fs
    if sub = "" then name else name ++ "(" ++ sub ++ ")"
  | _ => name

end

/-- Embeds `model_to_fields`: the field tree of a single model schema. -/
def model_to_fields (props : List (String × FType)) :
    Except String (List (String × Value)) :=
  schemaToFields props

/-- Embeds `map(model_to_fields, models)`. -/
def modelToFieldsList : List (List (String × FType)) →
    Except String (List (List (String × Value)))
  | [] => pure []
  | m :: ms => do pure ((← model_to_fields m) :: (← modelToFieldsList ms))

/-- Embeds `model_to_field_names` on the member list of the input type
(`get_args` of a union, or the singleton of a single model): the member
trees are deep-merged into `{}` and serialized, `None` for an empty result. -/
def model_to_field_names (models : List (List (String × FType))) :
    Except String (Option String) := do
  let fieldsDict ← deep_update [] (← modelToFieldsList models)
  let s := fieldsToCsv fieldsDict
  pure (if s = "" then none else some s)

/-!
Converter, encode direction (`obj_to_dict`).  A pydantic entity instance is
embedded as its list of fields in declaration order; each field carries its
wire name (the serialization alias), its schema default (`none` when the
field is required and has no default), and its assigned value (`none` when
the field was never set, `some (.prim .null)` when it was explicitly set to
null).  `model_dump(by_alias=True, exclude_unset=True)` and
`model_dump(by_alias=True, exclude_none=True)` are embedded as the two
projections `dumpU` and `dumpN`.
-/

mutual

/-- Entity-instance value: a scalar, a nested entity instance (its fields
in declaration order), or a sequence of values. -/
inductive EVal : Type where
  | prim (v : Value)
  | obj (fields : List EField)
  | seq (xs : List EVal)

/-- One entity field: wire name, schema default, assigned value. -/
inductive EField : Type where
  | mk (wire : String) (dflt : Option EVal) (assigned : Option EVal)

end

/-- Wire name of a field. -/
def EField.wireOf : EField → String
  | .mk w _ _ => w

/-- Resolved value of a field: the assigned value if the field was set
(explicit null included), otherwise the schema default. -/
def resolvedOf : Option EVal → Option EVal → Option EVal
  | some v, _ => some v
  | none, dflt => dflt

/-- Whether an entity value is the explicit null (`None`). -/
def isNullE : EVal → Bool
  | .prim .null => true
  | _ => false

mutual

/-- Embeds `model_dump(by_alias=True, exclude_unset=True)` on a value. -/
def dumpUVal : EVal → Value
  | .prim v => v
  | .obj fs => .dict (dumpU fs)
  | .seq xs => .list (dumpUList xs)

/-- Embeds the unset-excluding dump on a list of sequence elements. -/
def dumpUList : List EVal → List Value
  | [] => []
  | x :: xs => dumpUVal x :: dumpUList xs

/-- Embeds `model_dump(by_alias=True, exclude_unset=True)` on an instance:
only fields that were explicitly set appear, under their wire names. -/
def dumpU : List EField → List (String × Value)
  | [] => []
  | .mk w _ (some v) :: fs => (w, dumpUVal v) :: dumpU fs
  | .mk _ _ none :: fs => dumpU fs

end

mutual

/-- Embeds `model_dump(by_alias=True, exclude_none=True)` on a value. -/
def dumpNVal : EVal → Value
  | .prim v => v
  | .obj fs => .dict (dumpN fs)
  | .seq xs => .list (dumpNList xs)

/-- Embeds the none-excluding dump on a list of sequence elements. -/
def dumpNList : List EVal → List Value
  | [] => []
  | x :: xs => dumpNVal x :: dumpNList xs

/-- Embeds `model_dump(by_alias=True, exclude_none=True)` on an instance:
every field whose resolved value (assigned value, falling back to the
schema default) is present and not null appears, under its wire name. -/
def dumpN : List EField → List (String × Value)
  | [] => []
  | .mk w _ (some v) :: fs =>
    if isNullE v then dumpN fs else (w, dumpNVal v) :: dumpN fs
  | .mk w (some v) none :: fs =>
    if isNullE v then dumpN fs else (w, dumpNVal v) :: dumpN fs
  | .mk _ none none :: fs => dumpN fs

end

/-- Embeds `obj_to_dict` on a (non-`None`) instance:
`deep_update(obj.model_dump(by_alias=True, exclude_unset=True),
obj.model_dump(by_alias=True, exclude_none=True))`. -/
def obj_to_dict (fields : List EField) : Except String (List (String × Value)) :=
  deep_update (dumpU fields) [dumpN fields]

/-- Whether a converter value is a scalar (neither a dict nor a list);
`EVal.prim` leaves of a model dump are always scalars. -/
def isScalarV : Value → Bool
  | .list _ => false
  | .dict _ => false
  | _ => true

/-- Whether an entity value is a nested instance. -/
def isObjE : EVal → Bool
  | .obj _ => true
  | _ => false

/-- Wire names of an instance's fields, in declaration order. -/
def wiresL (fs : List EField) : List String :=
  fs.map EField.wireOf

/-- Distinctness of a list of wire names. -/
def nodupStr : List String → Bool
  | [] => true
  | s :: rest => !(rest.contains s) && nodupStr rest

mutual

/-- Well-formedness of an entity value as pydantic produces it: scalar
leaves are scalars, the fields of every (nested) instance have distinct
wire names, and sequences contain only entity instances (as all `Sequence`
fields of the entity schemas do). -/
def wfVal : EVal → Bool
  | .prim v => isScalarV v
  | .obj fs => nodupStr (wiresL fs) && wfFieldList fs
  | .seq xs => wfSeq xs

/-- Well-formedness of the elements of a sequence value. -/
def wfSeq : List EVal → Bool
  | [] => true
  | x :: xs => isObjE x && wfVal x && wfSeq xs

/-- Well-formedness of every default and assigned value of a field list. -/
def wfFieldList : List EField → Bool
  | [] => true
  | .mk _ dflt a :: fs => wfOptVal dflt && wfOptVal a && wfFieldList fs

/-- Well-formedness of an optional entity value. -/
def wfOptVal : Option EVal → Bool
  | none => true
  | some v => wfVal v

end

/-- Well-formedness of an entity instance (its field list). -/
def wfFields (fs : List EField) : Bool :=
  nodupStr (wiresL fs) && wfFieldList fs

mutual

/-- Value at which `obj_to_dict`'s deep merge arrives for an assigned
entity value: scalars as themselves, nested instances as their merged
dict, sequence elements merged element-wise. -/
def mVal : EVal → Value
  | .prim v => v
  | .obj fs => .dict (mergA fs ++ mergB fs)
  | .seq xs => .list (mValList xs)

/-- Merged values of a sequence's elements. -/
def mValList : List EVal → List Value
  | [] => []
  | x :: xs => mVal x :: mValList xs

/-- Merged entries for the explicitly assigned fields of an instance, in
declaration order (the keys of the unset-excluding dump, updated in place
by the merge). -/
def mergA : List EField → List (String × Value)
  | [] => []
  | .mk w _ (some v) :: fs => (w, mVal v) :: mergA fs
  | .mk _ _ none :: fs => mergA fs

/-- Merged entries for the unset fields with a non-null default, in
declaration order (the keys only the none-excluding dump contributes,
appended by the merge after the assigned ones). -/
def mergB : List EField → List (String × Value)
  | [] => []
  | .mk _ _ (some _) :: fs => mergB fs
  | .mk w (some v) none :: fs =>
    if isNullE v then mergB fs else (w, dumpNVal v) :: mergB fs
  | .mk _ none none :: fs => mergB fs

end

/-!
Timestamp and date encoding (`YouTrackTimestampEncoder`, `custom_json_dumps`)
and decoding (`YouTrackDate`, `validate_youtrack_datetime` in `types.py`).
`datetime.timestamp()` is embedded as exact rational arithmetic on the
datetime's epoch microseconds; IEEE-754 rounding of the Python float is out
of scope of this embedding.
-/

/-- Python `int()` applied to an exact rational: truncation toward zero. -/
def pyIntOfRat (q : Rat) : Int :=
  if q < 0 then ⌈q⌉ else ⌊q⌋

/-- Embeds `dt.timestamp()` of an aware datetime at `usec` epoch
microseconds: seconds since the epoch, as an exact rational. -/
def timestampRat (usec : Int) : Rat :=
  (usec : Rat) / 1000000

/-- Embeds `to_youtrack_timestamp`: `int(dt.timestamp() * 1000)`. -/
def to_youtrack_timestamp (usec : Int) : Int :=
  pyIntOfRat (timestampRat usec * 1000)

/-- Embeds `datetime.combine(obj, time(hour=12, tzinfo=UTC))`: noon UTC of
a calendar date, in epoch microseconds. -/
def combineNoonUsec (day : Int) : Int :=
  (day * 86400 + 43200) * 1000000

/-- Day number (since 1970-01-01) of a proleptic Gregorian calendar date,
standard civil-calendar arithmetic; used to name concrete dates.  The
year/month/day-to-day-number conversion itself is Python's `datetime`
library, not code of this repository. -/
def daysFromCivil (y : Int) (m : Nat) (d : Nat) : Int :=
  let y' : Int := if m ≤ 2 then y - 1 else y
  let era : Int := y'.fdiv 400
  let yoe : Int := y' - era * 400
  let mp : Int := if 2 < m then (m : Int) - 3 else (m : Int) + 9
  let doy : Int := (153 * mp + 2).fdiv 5 + (d : Int) - 1
  let doe : Int := yoe * 365 + yoe.fdiv 4 - yoe.fdiv 100 + doy
  era * 146097 + doe - 719468

mutual

/-- Embeds the effect of `custom_json_dumps` (i.e. `json.dumps` with
`YouTrackTimestampEncoder`) on the value tree before generic JSON
serialization: every aware datetime anywhere in the tree becomes
`int(dt.timestamp() * 1000)` and every date becomes the same for noon UTC
of that date (the `datetime` case is matched before the `date` case, as in
the source, since a Python datetime is also a date); everything else is
JSON-native and passes through.  `allow_nan=False` only concerns IEEE-754
non-finite floats, which the exact-rational float embedding cannot hold. -/
def encodeWire : Value → Value
  | .dt usec => .int (to_youtrack_timestamp usec)
  | .date day => .int (to_youtrack_timestamp (combineNoonUsec day))
  | .list xs => .list (encodeWireList xs)
  | .dict fs => .dict (encodeWireFields fs)
  | v => v

/-- Encoder effect on the elements of a JSON array. -/
def encodeWireList : List Value → List Value
  | [] => []
  | x :: xs => encodeWire x :: encodeWireList xs

/-- Encoder effect on the entries of a JSON object. -/
def encodeWireFields : List (String × Value) → List (String × Value)
  | [] => []
  | (k, v) :: fs => (k, encodeWire v) :: encodeWireFields fs

end

/-- Validation failure modes of the pydantic embedding: `invalid` embeds a
`ValueError`/validation error (caught per union member and collected per
field), while `runtimeError` and `attributeError` embed the Python
exceptions of those classes, which pydantic does not catch and lets
propagate out of validation. -/
inductive Fail where
  | invalid (msg : String)
  | runtimeError (msg : String)
  | attributeError (msg : String)
deriving DecidableEq, Repr

/-- Embeds the `BeforeValidator` lambda of `YouTrackDate`: an integer wire
value `d` becomes `datetime.fromtimestamp(d / 1000, UTC) -
timedelta(hours=12)` (for the noon-anchored integers the encoder produces,
`d / 1000` is an exactly representable integer number of seconds); any
other value passes through unchanged. -/
def youTrackDateBefore (v : Value) : Value :=
  match v with
  | .int n => .dt (n * 1000 - 43200000000)
  | other => other

/-- Embeds pydantic date validation after the before-validator: a date
passes through; a datetime is accepted exactly when its time component is
midnight (`date_from_datetime_inexact` otherwise) and yields its calendar
date's day number; other values are type errors (ISO date strings, which
pydantic would also parse, do not occur in the claims and are not
modelled). -/
def dateFromValue : Value → Except Fail Int
  | .date d => pure d
  | .dt usec =>
    if usec.emod 86400000000 = 0 then pure (usec.fdiv 86400000000)
    else throw (.invalid "date_from_datetime_inexact")
  | _ => throw (.invalid "date_type")

/-- Embeds validation of a (non-null) value against `YouTrackDate`: the
before-validator followed by date validation. -/
def youTrackDateValidate (v : Value) : Except Fail Int :=
  dateFromValue (youTrackDateBefore v)

/-!
Flexible custom-field values (`validate_youtrack_datetime` and
`SimpleIssueCustomField.value`), and discriminated decoding of the
`IssueCustomFieldType` union.
-/

/-- Embeds the decoded `FieldType` entity (only its `id` participates in
the marker check). -/
structure FieldTypeE where
  id : Option String
deriving DecidableEq, Repr

/-- Embeds the decoded `CustomField` entity. -/
structure CustomFieldE where
  field_type : Option FieldTypeE
deriving DecidableEq, Repr

/-- Embeds a decoded `ProjectCustomField` variant (all 11 variants carry
the same `field` attribute inherited from the base class). -/
structure PCFE where
  field : Option CustomFieldE
deriving DecidableEq, Repr

/-- Embeds `info.data` as `validate_youtrack_datetime` reads it:
`pcf = none` when the key `project_custom_field` is missing from the data
of already-validated fields (for instance because that field itself failed
validation), otherwise the validated value (which may be `None`). -/
structure InfoData where
  pcf : Option (Option PCFE)
deriving DecidableEq, Repr

/-- Embeds `validate_youtrack_datetime`.  The guard on missing
`project_custom_field` raises `RuntimeError`; a present but falsy (`None`)
value short-circuits the marker conjunction; a truthy value has its
`field.field_type.id` chain read (an `AttributeError` escapes if a link is
`None`), and under the `date and time` marker a non-null value must
already be a datetime or be an integer (a Python `bool` is an `int`) taken
as epoch milliseconds, else `ValueError`. -/
def validate_youtrack_datetime (value : Value) (info : InfoData) :
    Except Fail Value :=
  match info.pcf with
  | none =>
    throw (.runtimeError "validate_youtrack_datetime can only be used with models having project_custom_field")
  | some none => pure value
  | some (some p) =>
    match p.field with
    | none => throw (.attributeError "NoneType has no attribute field_type")
    | some cf =>
      match cf.field_type with
      | none => throw (.attributeError "NoneType has no attribute id")
      | some ft =>
        if ft.id = some "date and time" then
          match value with
          | .null => pure .null
          | .dt u => pure (.dt u)
          | .int n => pure (.dt (n * 1000))
          | .bool b => pure (.dt (if b then 1000 else 0))
          | _ => throw (.invalid "ValueError: date and time field must be an integer")
        else pure value

/-- Embeds smart-union validation of
`Optional[YouTrackDateTime | StrictStr | StrictInt | StrictFloat]`: the
`YouTrackDateTime` member runs the before-validator (a `ValueError` there
only fails that member, while `RuntimeError`/`AttributeError` propagate)
and then requires an aware datetime; on failure the strict members `str`,
`int`, `float` and the `None` type accept exactly their own type; a value
accepted by no member is a validation error. -/
def decodeFlexValue (info : InfoData) (value : Value) :
    Except Fail (Option Value) :=
  match validate_youtrack_datetime value info with
  | .error (.runtimeError m) => throw (.runtimeError m)
  | .error (.attributeError m) => throw (.attributeError m)
  | .ok (.dt u) => pure (some (.dt u))
  | _ =>
    match value with
    | .str s => pure (some (.str s))
    | .int n => pure (some (.int n))
    | .float q => pure (some (.float q))
    | .null => pure none
    | _ => throw (.invalid "ValidationError: value matches no union member")

/-- Wire-or-internal-name lookup (`populate_by_name=True`): the alias is
preferred, the internal field name accepted. -/
def lookupW (d : List (String × Value)) (aliasName fname : String) : Option Value :=
  match lookupD d aliasName with
  | some v => some v
  | none => lookupD d fname

/-- Decodes an `Optional[str]` field value (pydantic does not coerce
numbers to strings). -/
def decOptStr : Option Value → Except Fail (Option String)
  | none => pure none
  | some .null => pure none
  | some (.str s) => pure (some s)
  | some _ => throw (.invalid "string_type")

/-- Decodes an `Optional[int]` field value (claims exercise only exact
integers, so lax numeric-string coercion is not modelled). -/
def decOptInt : Option Value → Except Fail (Option Int)
  | none => pure none
  | some .null => pure none
  | some (.int n) => pure (some n)
  | some _ => throw (.invalid "int_type")

/-- Checks a `Literal` discriminator field against the allowed tags: an
absent field takes the default, a present one must be one of the tags. -/
def tagAdmissible (v : Option Value) (tags : List String) : Bool :=
  match v with
  | none => true
  | some (.str s) => tags.contains s
  | some _ => false

/-- Decodes `Optional[FieldType]` (entity with `$type` literal `FieldType`
and an optional string `id`). -/
def decFieldType : Value → Except Fail (Option FieldTypeE)
  | .null => pure none
  | .dict d =>
    if tagAdmissible (lookupW d "$type" "type") ["FieldType"] then do
      pure (some ⟨← decOptStr (lookupD d "id")⟩)
    else throw (.invalid "literal_error")
  | _ => throw (.invalid "model_type")

/-- Decodes `Optional[CustomField]` (entity with `$type` literal
`CustomField` and an optional `fieldType`). -/
def decCustomField : Value → Except Fail (Option CustomFieldE)
  | .null => pure none
  | .dict d =>
    if tagAdmissible (lookupW d "$type" "type") ["CustomField"] then do
      match lookupW d "fieldType" "field_type" with
      | none => pure (some ⟨none⟩)
      | some v => do pure (some ⟨← decFieldType v⟩)
    else throw (.invalid "literal_error")
  | _ => throw (.invalid "model_type")

/-- Discriminator literals of the 11 `ProjectCustomFieldType` members. -/
def pcfTags : List String :=
  ["GroupProjectCustomField", "BundleProjectCustomField",
   "BuildProjectCustomField", "EnumProjectCustomField",
   "OwnedProjectCustomField", "StateProjectCustomField",
   "UserProjectCustomField", "VersionProjectCustomField",
   "SimpleProjectCustomField", "TextProjectCustomField",
   "PeriodProjectCustomField"]

/-- Decodes `Optional[ProjectCustomFieldType]`: all union members carry the
inherited `field` attribute and are distinguished only by their `$type`
literal, so a mapping decodes against the member named by its `$type` (or
the first member's defaults when `$type` is absent); a tag outside the set
fails every member. -/
def decPCF : Value → Except Fail (Option PCFE)
  | .null => pure none
  | .dict d =>
    if tagAdmissible (lookupW d "$type" "type") pcfTags then do
      match lookupW d "field" "field" with
      | none => pure (some ⟨none⟩)
      | some v => do pure (some ⟨← decCustomField v⟩)
    else throw (.invalid "literal_error")
  | _ => throw (.invalid "model_type")

/-- Decoded `BundleElement` subclass instance (`id`, `name`; the concrete
subclass is fixed by the union member being validated). -/
structure BElem where
  id : Option String
  name : Option String
deriving DecidableEq, Repr

/-- Decoded `User` instance. -/
structure UserE where
  id : Option String
  name : Option String
  ring_id : Option String
  login : Option String
  email : Option String
deriving DecidableEq, Repr

/-- Decoded `UserGroup` instance. -/
structure GroupE where
  id : Option String
  name : Option String
  ring_id : Option String
deriving DecidableEq, Repr

/-- Decoded `TextFieldValue` instance. -/
structure TextFV where
  id : Option String
  text : Option String
  markdownText : Option String
deriving DecidableEq, Repr

/-- Decoded `PeriodValue` instance. -/
structure PeriodV where
  id : Option String
  minutes : Option Int
  presentation : Option String
deriving DecidableEq, Repr

/-- Decoded `value` payload of an `IssueCustomFieldType` member, one shape
per family of member schemas. -/
inductive ICFVal where
  | elem (e : BElem)
  | elems (es : List BElem)
  | userV (u : UserE)
  | userL (us : List UserE)
  | groupV (g : GroupE)
  | groupL (gs : List GroupE)
  | flex (v : Value)
  | dateV (day : Int)
  | periodV (p : PeriodV)
  | textV (t : TextFV)

/-- Decoded `IssueCustomFieldType` instance: the member's discriminator
literal plus the common fields and the member-specific value. -/
structure ICF where
  tag : String
  id : Option String
  name : Option String
  project_custom_field : Option PCFE
  value : Option ICFVal

/-- Decodes a `BundleElement` subclass value with discriminator `lit`. -/
def decBElem (lit : String) : Value → Except Fail BElem
  | .dict d =>
    if tagAdmissible (lookupW d "$type" "type") [lit] then do
      pure ⟨← decOptStr (lookupD d "id"), ← decOptStr (lookupD d "name")⟩
    else throw (.invalid "literal_error")
  | _ => throw (.invalid "model_type")

/-- Decodes a `User` value (`$type` literal is `User` or `Me`). -/
def decUser : Value → Except Fail UserE
  | .dict d =>
    if tagAdmissible (lookupW d "$type" "type") ["User", "Me"] then do
      pure ⟨← decOptStr (lookupD d "id"), ← decOptStr (lookupD d "name"),
        ← decOptStr (lookupW d "ringId" "ring_id"),
        ← decOptStr (lookupD d "login"), ← decOptStr (lookupD d "email")⟩
    else throw (.invalid "literal_error")
  | _ => throw (.invalid "model_type")

/-- Decodes a `UserGroup` value. -/
def decGroup : Value → Except Fail GroupE
  | .dict d =>
    if tagAdmissible (lookupW d "$type" "type") ["UserGroup"] then do
      pure ⟨← decOptStr (lookupD d "id"), ← decOptStr (lookupD d "name"),
        ← decOptStr (lookupW d "ringId" "ring_id")⟩
    else throw (.invalid "literal_error")
  | _ => throw (.invalid "model_type")

/-- Decodes a `TextFieldValue` value. -/
def decTextFV : Value → Except Fail TextFV
  | .dict d =>
    if tagAdmissible (lookupW d "$type" "type") ["TextFieldValue"] then do
      pure ⟨← decOptStr (lookupD d "id"), ← decOptStr (lookupD d "text"),
        ← decOptStr (lookupD d "markdownText")⟩
    else throw (.invalid "literal_error")
  | _ => throw (.invalid "model_type")

/-- Decodes a `PeriodValue` value. -/
def decPeriodV : Value → Except Fail PeriodV
  | .dict d =>
    if tagAdmissible (lookupW d "$type" "type") ["PeriodValue"] then do
      pure ⟨← decOptStr (lookupD d "id"), ← decOptInt (lookupD d "minutes"),
        ← decOptStr (lookupD d "presentation")⟩
    else throw (.invalid "literal_error")
  | _ => throw (.invalid "model_type")

/-- Lifts a sub-entity decoder to an `Optional[...]`-typed `value` field
(absent takes the default `None`). -/
def singleVal {β : Type} (dec : Value → Except Fail β) (wrap : β → ICFVal) :
    Option Value → InfoData → Except Fail (Option ICFVal)
  | none, _ => pure none
  | some .null, _ => pure none
  | some v, _ => do pure (some (wrap (← dec v)))

/-- Lifts a sub-entity decoder element-wise to a required
`Sequence[...]`-typed `value` field. -/
def multiVal {β : Type} (dec : Value → Except Fail β)
    (wrap : List β → ICFVal) :
    Option Value → InfoData → Except Fail (Option ICFVal)
  | none, _ => throw (.invalid "missing")
  | some (.list xs), _ => do pure (some (wrap (← xs.mapM dec)))
  | some _, _ => throw (.invalid "list_type")

/-- The `value` decoder of `SimpleIssueCustomField` (flexible union with
the conditional datetime coercion, consulting `info.data`). -/
def flexValDec : Option Value → InfoData → Except Fail (Option ICFVal)
  | none, _ => pure none
  | some v, info => do pure ((← decodeFlexValue info v).map ICFVal.flex)

/-- The `value` decoder of `DateIssueCustomField` (`Optional[YouTrackDate]`,
no dependence on previously validated fields). -/
def dateValDec : Option Value → InfoData → Except Fail (Option ICFVal)
  | none, _ => pure none
  | some .null, _ => pure none
  | some v, _ => do pure (some (.dateV (← youTrackDateValidate v)))

/-- The 17 members of the `IssueCustomFieldType` union, in declaration
order: discriminator literal paired with the member's `value` decoder. -/
def icfMembers :
    List (String × (Option Value → InfoData → Except Fail (Option ICFVal))) :=
  [("SingleEnumIssueCustomField", singleVal (decBElem "EnumBundleElement") .elem),
   ("MultiEnumIssueCustomField", multiVal (decBElem "EnumBundleElement") .elems),
   ("SingleBuildIssueCustomField", singleVal (decBElem "BuildBundleElement") .elem),
   ("MultiBuildIssueCustomField", multiVal (decBElem "BuildBundleElement") .elems),
   ("StateIssueCustomField", singleVal (decBElem "StateBundleElement") .elem),
   ("SingleVersionIssueCustomField", singleVal (decBElem "VersionBundleElement") .elem),
   ("MultiVersionIssueCustomField", multiVal (decBElem "VersionBundleElement") .elems),
   ("SingleOwnedIssueCustomField", singleVal (decBElem "OwnedBundleElement") .elem),
   ("MultiOwnedIssueCustomField", multiVal (decBElem "OwnedBundleElement") .elems),
   ("SingleUserIssueCustomField", singleVal decUser .userV),
   ("MultiUserIssueCustomField", multiVal decUser .userL),
   ("SingleGroupIssueCustomField", singleVal decGroup .groupV),
   ("MultiGroupIssueCustomField", multiVal decGroup .groupL),
   ("SimpleIssueCustomField", flexValDec),
   ("DateIssueCustomField", dateValDec),
   ("PeriodIssueCustomField", singleVal decPeriodV .periodV),
   ("TextIssueCustomField", singleVal decTextFV .textV)]

/-- Embeds validation of one union member model against a mapping.
Pydantic validates fields in declaration order — `id`, `name`,
`project_custom_field` (inherited), then `type`, `value` — collecting
per-field errors while continuing with the remaining fields; a field that
failed is absent from `info.data`, and a non-`ValueError` exception from
the `value` validator propagates out of validation entirely. -/
def decMember (lit : String)
    (valDec : Option Value → InfoData → Except Fail (Option ICFVal))
    (d : List (String × Value)) : Except Fail ICF :=
  let idR := decOptStr (lookupD d "id")
  let nameR := decOptStr (lookupD d "name")
  let pcfR : Except Fail (Option PCFE) :=
    match lookupW d "projectCustomField" "project_custom_field" with
    | none => pure none
    | some v => decPCF v
  let tagOk : Bool := tagAdmissible (lookupW d "$type" "type") [lit]
  let info : InfoData := ⟨match pcfR with | .ok p => some p | .error _ => none⟩
  let valueR := valDec (lookupW d "value" "value") info
  match idR, nameR, pcfR, valueR, tagOk with
  | .ok i, .ok n, .ok p, .ok v, true => pure ⟨lit, i, n, p, v⟩
  | _, _, _, .error (.runtimeError m), _ => throw (.runtimeError m)
  | _, _, _, .error (.attributeError m), _ => throw (.attributeError m)
  | _, _, _, _, _ => throw (.invalid "ValidationError")

/-- Embeds smart-union validation over a member list: members are tried in
declaration order, a member's validation error moves on to the next
member, any other exception propagates, and a mapping no member accepts is
a validation error. -/
def tryMembers :
    List (String × (Option Value → InfoData → Except Fail (Option ICFVal))) →
    List (String × Value) → Except Fail ICF
  | [], _ => throw (.invalid "ValidationError: no union member matched")
  | (lit, vd) :: rest, d =>
    match decMember lit vd d with
    | .ok inst => pure inst
    | .error (.runtimeError m) => throw (.runtimeError m)
    | .error (.attributeError m) => throw (.attributeError m)
    | .error (.invalid _) => tryMembers rest d

/-- Embeds `TypeAdapter(IssueCustomFieldType).validate_python` on a parsed
JSON value. -/
def decodeIssueCustomField (v : Value) : Except Fail ICF :=
  match v with
  | .dict d => tryMembers icfMembers d
  | _ => throw (.invalid "model_type")

/-- Embeds validation of a mapping against the `SimpleIssueCustomField`
model itself (the flexible-value member), used by the claims about
`validate_youtrack_datetime` reachability. -/
def decodeSimpleIssueCustomField (d : List (String × Value)) : Except Fail ICF :=
  decMember "SimpleIssueCustomField" flexValDec d

/-- Discriminator literals of the `IssueCustomFieldType` members. -/
def icfTags : List String :=
  icfMembers.map Prod.fst

/-- Previously-validated data whose `project_custom_field` carries the
complete `field.field_type.id = "date and time"` marker chain. -/
def markerInfo : InfoData :=
  ⟨some (some ⟨some ⟨some ⟨some "date and time"⟩⟩⟩)⟩

/-- Previously-validated data whose `project_custom_field` chain ends in a
`string`-typed field. -/
def stringFieldInfo : InfoData :=
  ⟨some (some ⟨some ⟨some ⟨some "string"⟩⟩⟩)⟩

/-- Wire mapping of a `SimpleProjectCustomField` whose field type id is
`date and time` (as in the test fixtures). -/
def pcfMarkerDict : List (String × Value) :=
  [("$type", .str "SimpleProjectCustomField"),
   ("field", .dict
     [("$type", .str "CustomField"),
      ("fieldType", .dict
        [("$type", .str "FieldType"), ("id", .str "date and time")])])]

mutual

/-- Whether a value is a field tree: a dict whose values are field trees
(the only shape `type_to_fields` ever produces; a leaf is the empty dict). -/
def isTreeVal : Value → Bool
  | .dict fs => isTreeFields fs
  | _ => false

/-- Whether every value of a dict is a field tree. -/
def isTreeFields : List (String × Value) → Bool
  | [] => true
  | (_, v) :: fs => isTreeVal v && isTreeFields fs

end

/-!
Heap model of `deep_update`'s mutation behaviour.  Python dicts are
mutable objects with identity; `deep_update` deep-copies its destination
and then assigns only into that copy (and into the fresh copies made by
its recursive calls), so its arguments are never mutated.  To state this,
dict objects are put on an explicit heap behind addresses; scalars are
immutable in Python, and the code never mutates a list in place (it only
builds new lists via `list(starmap(...))`), so lists are kept structural.
All recursion is fuel-indexed; running out of fuel embeds Python's
`RecursionError` on cyclic or too-deep structures.
-/

/-- Heap value: a scalar, a list of heap values, or a reference to a
heap-allocated dict. -/
inductive HVal where
  | prim (v : Value)
  | arr (xs : List HVal)
  | ref (a : Nat)

/-- Runtime type of a heap value (references always denote dicts). -/
def htypeOf : HVal → PyTy
  | .prim v => pyTypeOf v
  | .arr _ => .tList
  | .ref _ => .tDict

/-- Entry lookup in a dict's contents. -/
def lookupH : List (String × HVal) → String → Option HVal
  | [], _ => none
  | (k, v) :: rest, key => if k = key then some v else lookupH rest key

/-- In-place entry update in a dict's contents. -/
def setH : List (String × HVal) → String → HVal → List (String × HVal)
  | [], _, _ => []
  | (k, v) :: rest, key, newV =>
    if k = key then (k, newV) :: rest else (k, v) :: setH rest key newV

/-- Address-indexed read of the backing store. -/
def readMem : List (Nat × List (String × HVal)) → Nat →
    Option (List (String × HVal))
  | [], _ => none
  | (a, d) :: rest, b => if a = b then some d else readMem rest b

/-- Address-indexed update of the backing store. -/
def writeMem : List (Nat × List (String × HVal)) → Nat →
    List (String × HVal) → List (Nat × List (String × HVal))
  | [], _, _ => []
  | (a, d) :: rest, b, newD =>
    if a = b then (a, newD) :: rest else (a, d) :: writeMem rest b newD

/-- Mutable store of dict objects: the next fresh address and the
contents of every allocated address. -/
structure Heap where
  next : Nat
  mem : List (Nat × List (String × HVal))

/-- Reads the dict at an address. -/
def Heap.read (h : Heap) (a : Nat) : Option (List (String × HVal)) :=
  readMem h.mem a

/-- Overwrites the dict at an (allocated) address. -/
def Heap.write (h : Heap) (a : Nat) (d : List (String × HVal)) : Heap :=
  ⟨h.next, writeMem h.mem a d⟩

/-- Allocates a fresh dict object. -/
def Heap.alloc (h : Heap) (d : List (String × HVal)) : Heap × Nat :=
  (⟨h.next + 1, (h.next, d) :: h.mem⟩, h.next)

mutual

/-- Embeds `copy.deepcopy` on a converter value: scalars are shared
(immutable), lists and dicts are copied recursively, every copied dict
getting a fresh address. -/
def deepcopyH : Nat → Heap → HVal → Heap × Except String HVal
  | 0, h, _ => (h, .error "RecursionError")
  | _ + 1, h, .prim v => (h, .ok (.prim v))
  | fuel + 1, h, .arr xs =>
    match deepcopyHList fuel h xs with
    | (h1, .error e) => (h1, .error e)
    | (h1, .ok ys) => (h1, .ok (.arr ys))
  | fuel + 1, h, .ref a =>
    match h.read a with
    | none => (h, .error "SystemError: dangling reference")
    | some d =>
      match deepcopyHFields fuel h d with
      | (h1, .error e) => (h1, .error e)
      | (h1, .ok d1) =>
        match h1.alloc d1 with
        | (h2, a1) => (h2, .ok (.ref a1))

/-- Deep copy of list elements. -/
def deepcopyHList : Nat → Heap → List HVal → Heap × Except String (List HVal)
  | 0, h, _ => (h, .error "RecursionError")
  | _ + 1, h, [] => (h, .ok [])
  | fuel + 1, h, x :: xs =>
    match deepcopyH fuel h x with
    | (h1, .error e) => (h1, .error e)
    | (h1, .ok y) =>
      match deepcopyHList fuel h1 xs with
      | (h2, .error e) => (h2, .error e)
      | (h2, .ok ys) => (h2, .ok (y :: ys))

/-- Deep copy of dict entries. -/
def deepcopyHFields : Nat → Heap → List (String × HVal) →
    Heap × Except String (List (String × HVal))
  | 0, h, _ => (h, .error "RecursionError")
  | _ + 1, h, [] => (h, .ok [])
  | fuel + 1, h, (k, v) :: rest =>
    match deepcopyH fuel h v with
    | (h1, .error e) => (h1, .error e)
    | (h1, .ok v1) =>
      match deepcopyHFields fuel h1 rest with
      | (h2, .error e) => (h2, .error e)
      | (h2, .ok rest1) => (h2, .ok ((k, v1) :: rest1))

end

mutual

/-- Embeds `deep_update(dest, *mappings)` on the heap: the destination is
deep-copied and every source mapping's items are merged into the copy;
only the copy (and the fresh copies made by recursive calls) is ever
written to. -/
def deep_updateH (fuel : Nat) (h : Heap) (dest : HVal) (ms : List HVal) :
    Heap × Except String HVal :=
  match fuel with
  | 0 => (h, .error "RecursionError")
  | fuel + 1 =>
    match deepcopyH fuel h dest with
    | (h1, .error e) => (h1, .error e)
    | (h1, .ok result) => mergeManyH fuel h1 result ms

/-- The `for source in mappings` loop: each source must be a dict, whose
items are merged into `result` one by one. -/
def mergeManyH (fuel : Nat) (h : Heap) (result : HVal) (ms : List HVal) :
    Heap × Except String HVal :=
  match fuel with
  | 0 => (h, .error "RecursionError")
  | fuel + 1 =>
    match ms with
    | [] => (h, .ok result)
    | m :: rest =>
      match m with
      | .ref a =>
        match h.read a with
        | none => (h, .error "SystemError: dangling reference")
        | some items =>
          match mergeItemsH fuel h result items with
          | (h1, .error e) => (h1, .error e)
          | (h1, .ok _) => mergeManyH fuel h1 result rest
      | _ => (h, .error "AttributeError: source mapping has no items")

/-- The `for key, value in source.items()` loop over one source. -/
def mergeItemsH (fuel : Nat) (h : Heap) (result : HVal)
    (items : List (String × HVal)) : Heap × Except String Unit :=
  match fuel with
  | 0 => (h, .error "RecursionError")
  | fuel + 1 =>
    match items with
    | [] => (h, .ok ())
    | (k, v) :: rest =>
      match mergeStepH fuel h result k v with
      | (h1, .error e) => (h1, .error e)
      | (h1, .ok _) => mergeItemsH fuel h1 result rest

/-- One loop body iteration: the key is looked up in the result dict, and
the result dict (the only object written) is updated in place — appending
an absent key, type-checking a present one, recursing through a fresh
`deep_update` for dict values, merging lists element-wise, and otherwise
storing the source value (shared, not copied). -/
def mergeStepH (fuel : Nat) (h : Heap) (result : HVal) (k : String)
    (v : HVal) : Heap × Except String Unit :=
  match fuel with
  | 0 => (h, .error "RecursionError")
  | fuel + 1 =>
    match result with
    | .ref ar =>
      match h.read ar with
      | none => (h, .error "SystemError: dangling reference")
      | some rfields =>
        match lookupH rfields k with
        | none => (h.write ar (rfields ++ [(k, v)]), .ok ())
        | some old =>
          if htypeOf old != htypeOf v then
            (h, .error "TypeError: destination type differs from source type")
          else
            match old, v with
            | .ref _, .ref _ =>
              match deep_updateH fuel h old [v] with
              | (h1, .error e) => (h1, .error e)
              | (h1, .ok newV) =>
                match h1.read ar with
                | none => (h1, .error "SystemError: dangling reference")
                | some rf1 => (h1.write ar (setH rf1 k newV), .ok ())
            | .arr xs, .arr ys =>
              if xs.length != ys.length then
                (h, .error "TypeError: destination list length differs from source list length")
              else
                match zipMergeH fuel h xs ys with
                | (h1, .error e) => (h1, .error e)
                | (h1, .ok zs) =>
                  match h1.read ar with
                  | none => (h1, .error "SystemError: dangling reference")
                  | some rf1 => (h1.write ar (setH rf1 k (.arr zs)), .ok ())
            | _, _ => (h.write ar (setH rfields k v), .ok ())
    | _ => (h, .error "TypeError: destination does not support string keys")

/-- Embeds `list(starmap(deep_update, zip(xs, ys)))` on the heap. -/
def zipMergeH (fuel : Nat) (h : Heap) (xs ys : List HVal) :
    Heap × Except String (List HVal) :=
  match fuel with
  | 0 => (h, .error "RecursionError")
  | fuel + 1 =>
    match xs, ys with
    | x :: xs1, y :: ys1 =>
      match deep_updateH fuel h x [y] with
      | (h1, .error e) => (h1, .error e)
      | (h1, .ok z) =>
        match zipMergeH fuel h1 xs1 ys1 with
        | (h2, .error e) => (h2, .error e)
        | (h2, .ok zs) => (h2, .ok (z :: zs))
    | _, _ => (h, .ok [])

end

/-- Frame relation: the store grew monotonically and every address below
the bound `B` reads unchanged. -/
def frameAt (B : Nat) (h h1 : Heap) : Prop :=
  h.next ≤ h1.next ∧ ∀ a, a < B → h1.read a = h.read a

/-!
Theorems.  General `Except` simp lemmas first, then per-claim results.
-/

/-- Simp lemma identifying `pure` with `Except.ok` in statements. -/
@[simp] theorem except_pure_eq_ok {ε α : Type} (a : α) :
    (pure a : Except ε α) = Except.ok a := rfl

/-- Simp lemma unfolding monadic bind on a successful `Except`. -/
@[simp] theorem except_bind_ok {ε α β : Type} (a : α) (f : α → Except ε β) :
    ((Except.ok a : Except ε α) >>= f) = f a := rfl

/-- Simp lemma unfolding monadic bind on a failed `Except`. -/
@[simp] theorem except_bind_error {ε α β : Type} (e : ε) (f : α → Except ε β) :
    ((Except.error e : Except ε α) >>= f) = Except.error e := rfl

/-- Simp lemma identifying `throw` with `Except.error` in statements. -/
@[simp] theorem except_throw_eq_error {ε α : Type} (e : ε) :
    (throw e : Except ε α) = Except.error e := rfl

/-- Python `int(u / 1000)` on an exact rational quotient of integers is
truncation toward zero, i.e. `Int.tdiv`. -/
theorem pyIntOfRat_div_1000 (u : Int) :
    pyIntOfRat ((u : Rat) / 1000) = u.tdiv 1000 := by
  unfold pyIntOfRat
  rcases le_or_lt 0 u with hu | hu
  · have hq : ¬((u : Rat) / 1000 < 0) := by
      push_neg
      apply div_nonneg (by exact_mod_cast hu) (by norm_num)
    rw [if_neg hq]
    have h1 : ⌊(u : Rat) / 1000⌋ = u / 1000 := by
      have h := Rat.floor_intCast_div_natCast u 1000
      push_cast at h
      simpa using h
    rw [h1, Int.tdiv_eq_ediv hu (by norm_num)]
  · have hq : (u : Rat) / 1000 < 0 := by
      apply div_neg_of_neg_of_pos (by exact_mod_cast hu) (by norm_num)
    rw [if_pos hq]
    have h2 : ⌈(u : Rat) / 1000⌉ = -⌊((-u : Int) : Rat) / 1000⌋ := by
      rw [show ((-u : Int) : Rat) / 1000 = -((u : Rat) / 1000) by push_cast; ring,
        Int.floor_neg]
      simp
    have h3 : ⌊((-u : Int) : Rat) / 1000⌋ = (-u) / 1000 := by
      have h := Rat.floor_intCast_div_natCast (-u) 1000
      push_cast at h
      simpa using h
    have h4 : (-u).tdiv 1000 = (-u) / 1000 :=
      Int.tdiv_eq_ediv (by omega) (by norm_num)
    have h5 : u.tdiv 1000 = -((-u) / 1000) := by
      rw [← h4, ← Int.neg_tdiv, neg_neg]
    rw [h2, h3, h5]

/-- The encoder's datetime rule: `int(dt.timestamp() * 1000)` equals the
epoch microseconds truncated (toward zero) to milliseconds. -/
theorem to_youtrack_timestamp_eq (usec : Int) :
    to_youtrack_timestamp usec = usec.tdiv 1000 := by
  unfold to_youtrack_timestamp timestampRat
  rw [show (usec : Rat) / 1000000 * 1000 = (usec : Rat) / 1000 by ring]
  exact pyIntOfRat_div_1000 usec

/-- The encoder's date rule in closed form: noon UTC of day `d` encodes to
`(d * 86400 + 43200) * 1000` epoch milliseconds. -/
theorem encode_date_eq (day : Int) :
    encodeWire (.date day) = .int ((day * 86400 + 43200) * 1000) := by
  rw [show encodeWire (.date day) = .int (to_youtrack_timestamp (combineNoonUsec day)) from by
    simp [encodeWire]]
  rw [to_youtrack_timestamp_eq]
  unfold combineNoonUsec
  rw [show (day * 86400 + 43200) * 1000000 = ((day * 86400 + 43200) * 1000) * 1000 by ring,
    Int.mul_tdiv_cancel _ (by norm_num)]

/-- C6 (amended: `int()` truncates toward zero, which agrees with the
floor for every timestamp at or after the epoch): the JSON-body encoder
rewrites every timezone-aware datetime value to its Unix timestamp times
1000 truncated to an integer, and every plain date value to the
millisecond epoch of that date at 12:00:00 UTC; in particular
2021-02-09T14:03:11Z encodes to 1612879391000 and the calendar date
2022-02-17 encodes to 1645099200000. -/
theorem encoder_timestamp_rules :
    (∀ usec : Int, encodeWire (.dt usec) = .int (usec.tdiv 1000))
    ∧ (∀ day : Int,
        encodeWire (.date day) = .int ((day * 86400 + 43200) * 1000))
    ∧ encodeWire (.dt ((daysFromCivil 2021 2 9 * 86400 + (14 * 3600 + 3 * 60 + 11)) * 1000000))
        = .int 1612879391000
    ∧ encodeWire (.date (daysFromCivil 2022 2 17)) = .int 1645099200000 := by
  refine ⟨fun usec => ?_, fun day => encode_date_eq day, ?_, ?_⟩
  · simp [encodeWire, to_youtrack_timestamp_eq]
  · rw [show encodeWire (.dt ((daysFromCivil 2021 2 9 * 86400 + (14 * 3600 + 3 * 60 + 11)) * 1000000)) = .int (to_youtrack_timestamp ((daysFromCivil 2021 2 9 * 86400 + (14 * 3600 + 3 * 60 + 11)) * 1000000)) from by simp [encodeWire]]
    rw [to_youtrack_timestamp_eq]
    norm_num [daysFromCivil, Int.fdiv]
    decide
  · rw [encode_date_eq]
    norm_num [daysFromCivil, Int.fdiv]

/-- C6 counterexample: at the aware datetime 500 microseconds before the
epoch (Unix timestamp -0.0005), the encoder produces 0 (truncation toward
zero), while the integer floor of the timestamp times 1000 is -1, so the
encoder does not compute the floor. -/
theorem encoder_not_floor :
    encodeWire (.dt (-500)) = .int 0
    ∧ ⌊timestampRat (-500) * 1000⌋ = -1
    ∧ (0 : Int) ≠ -1 := by
  refine ⟨?_, ?_, by norm_num⟩
  · rw [show encodeWire (.dt (-500)) = .int (to_youtrack_timestamp (-500)) from by
      simp [encodeWire]]
    rw [to_youtrack_timestamp_eq]
    norm_num
    decide
  · rw [show timestampRat (-500) * 1000 = (-1 : Rat) / 2 by
      norm_num [timestampRat]]
    rw [Int.floor_eq_iff]
    norm_num

/-- C5: decoding the wire integer produced by encoding a calendar date
yields the date again (the decoder takes the integer as epoch
milliseconds, subtracts 12 hours, and keeps the calendar-date component,
inverting the noon anchor); in particular 1645099200000 decodes to
2022-02-17, and a value that is already a date passes through unchanged. -/
theorem youtrack_date_roundtrip :
    (∀ day : Int, youTrackDateValidate (encodeWire (.date day)) = .ok day)
    ∧ youTrackDateValidate (.int 1645099200000) = .ok (daysFromCivil 2022 2 17)
    ∧ (∀ d : Int, youTrackDateValidate (.date d) = .ok d) := by
  refine ⟨fun day => ?_, ?_, fun d => by simp [youTrackDateValidate, youTrackDateBefore, dateFromValue]⟩
  · rw [encode_date_eq]
    simp only [youTrackDateValidate, youTrackDateBefore, dateFromValue]
    rw [show (day * 86400 + 43200) * 1000 * 1000 - 43200000000 = day * 86400000000 by ring]
    rw [show (day * 86400000000).emod 86400000000 = 0 from by
      show day * 86400000000 % 86400000000 = 0
      exact Int.mul_emod_left day _]
    simp [Int.mul_fdiv_cancel day (by norm_num : (86400000000 : Int) ≠ 0)]
  · simp only [youTrackDateValidate, youTrackDateBefore, dateFromValue]
    rw [if_pos (by decide)]
    simp only [except_pure_eq_ok, Except.ok.injEq]
    decide

/-- C2 counterexample: with the `date and time` marker present and a
non-null wire value that is neither a datetime nor an integer (the string
`100-003-675`), decoding does not fail: the datetime member's type-mismatch
`ValueError` only fails that union member, and the strict string member
then accepts the value unchanged. -/
theorem flex_marker_string_passes_through :
    decodeFlexValue markerInfo (.str "100-003-675") = .ok (some (.str "100-003-675"))
    ∧ ¬∃ e : Fail, decodeFlexValue markerInfo (.str "100-003-675") = .error e := by
  have h1 : decodeFlexValue markerInfo (.str "100-003-675") =
      .ok (some (.str "100-003-675")) := by
    simp +decide [decodeFlexValue, validate_youtrack_datetime, markerInfo]
  refine ⟨h1, ?_⟩
  rintro ⟨e, he⟩
  rw [h1] at he
  exact absurd he (by simp)

/-- C2 (amended): under the `date and time` marker an integer wire value
`n` decodes to the UTC timestamp at `n / 1000` seconds and a datetime
passes through; when the sibling `project_custom_field` is null or its
`field.field_type.id` chain yields any other id, strict string / int /
float wire values pass through unchanged (no numeric-string coercion);
when the marker is present and the non-null value is neither a datetime
nor an integer, the datetime member fails with the type-mismatch
`ValueError` but the union falls back to the strict members, so strings
and floats still pass through unchanged and only a value outside
str/int/float (e.g. a list) makes decoding fail. -/
theorem flexible_value_decode_rules :
    (∀ n : Int, decodeFlexValue markerInfo (.int n) = .ok (some (.dt (n * 1000))))
    ∧ (∀ u : Int, decodeFlexValue markerInfo (.dt u) = .ok (some (.dt u)))
    ∧ (∀ s, decodeFlexValue ⟨some none⟩ (.str s) = .ok (some (.str s)))
    ∧ (∀ n : Int, decodeFlexValue ⟨some none⟩ (.int n) = .ok (some (.int n)))
    ∧ (∀ q : Rat, decodeFlexValue ⟨some none⟩ (.float q) = .ok (some (.float q)))
    ∧ (∀ i : Option String, i ≠ some "date and time" →
        (∀ s, decodeFlexValue ⟨some (some ⟨some ⟨some ⟨i⟩⟩⟩)⟩ (.str s) = .ok (some (.str s)))
        ∧ (∀ n : Int, decodeFlexValue ⟨some (some ⟨some ⟨some ⟨i⟩⟩⟩)⟩ (.int n) = .ok (some (.int n)))
        ∧ (∀ q : Rat, decodeFlexValue ⟨some (some ⟨some ⟨some ⟨i⟩⟩⟩)⟩ (.float q) = .ok (some (.float q))))
    ∧ (∀ s, decodeFlexValue markerInfo (.str s) = .ok (some (.str s)))
    ∧ (∀ q : Rat, decodeFlexValue markerInfo (.float q) = .ok (some (.float q)))
    ∧ decodeFlexValue markerInfo (.list [])
        = .error (.invalid "ValidationError: value matches no union member")
    ∧ decodeFlexValue markerInfo (.int 1623396729000) = .ok (some (.dt 1623396729000000))
    ∧ decodeFlexValue stringFieldInfo (.str "100-003-675") = .ok (some (.str "100-003-675")) := by
  have neqCase : ∀ (i : Option String), i ≠ some "date and time" → ∀ v : Value,
      validate_youtrack_datetime v ⟨some (some ⟨some ⟨some ⟨i⟩⟩⟩)⟩ = .ok v := by
    intro i hi v
    simp only [validate_youtrack_datetime]
    rw [if_neg (by simpa using hi)]
    rfl
  refine ⟨fun n => ?_, fun u => ?_, fun s => ?_, fun n => ?_, fun q => ?_,
    fun i hi => ⟨fun s => ?_, fun n => ?_, fun q => ?_⟩, fun s => ?_, fun q => ?_, ?_, ?_, ?_⟩
  case refine_6 => simp [decodeFlexValue, neqCase i hi (.str s)]
  case refine_7 => simp [decodeFlexValue, neqCase i hi (.int n)]
  case refine_8 => simp [decodeFlexValue, neqCase i hi (.float q)]
  all_goals
    simp +decide [decodeFlexValue, validate_youtrack_datetime, markerInfo,
      stringFieldInfo]

/-- Witness for the amended flexible-value rules: the `string`-typed field
of the conditional-coercion scenario satisfies the non-marker hypothesis,
and the raw value `100-003-675` decodes to the literal string. -/
theorem flexible_value_decode_rules_witness :
    (some "string" : Option String) ≠ some "date and time"
    ∧ decodeFlexValue ⟨some (some ⟨some ⟨some ⟨some "string"⟩⟩⟩)⟩ (.str "100-003-675")
        = .ok (some (.str "100-003-675")) :=
  ⟨by decide,
    (flexible_value_decode_rules.2.2.2.2.2.1 (some "string") (by decide)).1 "100-003-675"⟩

/-- The datetime validator never raises `RuntimeError` once the
`project_custom_field` key is present in the already-validated data. -/
theorem validate_no_runtime (v : Value) (p : Option PCFE) (m : String) :
    validate_youtrack_datetime v ⟨some p⟩ ≠ .error (.runtimeError m) := by
  match p with
  | none => simp [validate_youtrack_datetime]
  | some ⟨none⟩ => simp [validate_youtrack_datetime]
  | some ⟨some ⟨none⟩⟩ => simp [validate_youtrack_datetime]
  | some ⟨some ⟨some ft⟩⟩ =>
    simp only [validate_youtrack_datetime]
    split
    · match v with
      | .null | .dt _ | .int _ | .bool _ => simp
      | .float _ | .str _ | .date _ | .list _ | .dict _ => simp
    · simp

/-- The flexible-value union never raises `RuntimeError` once the
`project_custom_field` key is present in the already-validated data. -/
theorem decodeFlex_no_runtime (v : Value) (p : Option PCFE) (m : String) :
    decodeFlexValue ⟨some p⟩ v ≠ .error (.runtimeError m) := by
  unfold decodeFlexValue
  split
  · next heq => exact absurd heq (validate_no_runtime v p _)
  · simp
  · simp
  · match v with
    | .str _ | .int _ | .float _ | .null => simp
    | .bool _ | .dt _ | .date _ | .list _ | .dict _ => simp

/-- C10 counterexample: a mapping whose `projectCustomField` value fails
validation (an integer) while `value` is present reaches the RuntimeError
guard even though `project_custom_field` is declared before `value`: the
failed field is excluded from the already-validated data, later fields are
still validated, and the RuntimeError propagates out of the decode. -/
theorem runtime_guard_reached :
    decodeSimpleIssueCustomField [("projectCustomField", .int 0), ("value", .int 5)]
      = .error (.runtimeError "validate_youtrack_datetime can only be used with models having project_custom_field") := by
  rfl

/-- The `value` field decoder of `SimpleIssueCustomField` never raises
`RuntimeError` once the `project_custom_field` key is present in the
already-validated data. -/
theorem flexValDec_no_runtime (ov : Option Value) (p : Option PCFE) (m : String) :
    flexValDec ov ⟨some p⟩ ≠ .error (.runtimeError m) := by
  match ov with
  | none => simp [flexValDec]
  | some v =>
    simp only [flexValDec]
    cases h : decodeFlexValue ⟨some p⟩ v with
    | ok o => simp [h]
    | error e =>
      cases e with
      | runtimeError m' => exact absurd h (decodeFlex_no_runtime v p m')
      | invalid m' => simp [h]
      | attributeError m' => simp [h]

/-- C10 (amended): validating a `YouTrackDateTime`-annotated field on a
model whose already-validated data lacks `project_custom_field` raises
`RuntimeError`; for `SimpleIssueCustomField`, where `project_custom_field`
is declared before `value`, that branch is unreachable provided the
supplied `projectCustomField` input is absent or itself validates — if it
fails validation while `value` is present the RuntimeError does escape —
and when the `date and time` marker is present but the wire value is null,
the null passes through unchanged without error. -/
theorem youtrack_datetime_guard :
    (∀ v : Value, validate_youtrack_datetime v ⟨none⟩
        = .error (.runtimeError "validate_youtrack_datetime can only be used with models having project_custom_field"))
    ∧ (∀ d : List (String × Value),
        (∀ v, lookupW d "projectCustomField" "project_custom_field" = some v →
          ∃ p, decPCF v = .ok p) →
        ∀ m, decodeSimpleIssueCustomField d ≠ .error (.runtimeError m))
    ∧ validate_youtrack_datetime .null markerInfo = .ok .null
    ∧ decodeSimpleIssueCustomField
        [("$type", .str "SimpleIssueCustomField"),
         ("projectCustomField", .dict pcfMarkerDict), ("value", .null)]
        = .ok ⟨"SimpleIssueCustomField", none, none,
            some ⟨some ⟨some ⟨some "date and time"⟩⟩⟩, none⟩ := by
  refine ⟨fun v => rfl, ?_, rfl, rfl⟩
  intro d hpcf m hcontra
  have hpcfR : ∃ p', (match lookupW d "projectCustomField" "project_custom_field" with
      | none => (pure none : Except Fail (Option PCFE))
      | some v => decPCF v) = .ok p' := by
    cases hl : lookupW d "projectCustomField" "project_custom_field" with
    | none => exact ⟨none, rfl⟩
    | some v =>
      obtain ⟨p, hp⟩ := hpcf v hl
      exact ⟨p, hp⟩
  obtain ⟨p', hp'⟩ := hpcfR
  simp only [decodeSimpleIssueCustomField, decMember, hp'] at hcontra
  split at hcontra
  · exact absurd hcontra (by simp)
  · next h1 h2 =>
    exact absurd h2 (flexValDec_no_runtime _ p' h1)
  · exact absurd hcontra (by simp)
  · exact absurd hcontra (by simp)

/-- Witness for the guard theorem: the marker-carrying mapping satisfies
the valid-`projectCustomField` hypothesis, and the theorem then shows its
decode cannot end in a RuntimeError. -/
theorem youtrack_datetime_guard_witness :
    decodeSimpleIssueCustomField
      [("$type", .str "SimpleIssueCustomField"),
       ("projectCustomField", .dict pcfMarkerDict), ("value", .null)]
      ≠ .error (.runtimeError "validate_youtrack_datetime can only be used with models having project_custom_field") := by
  apply youtrack_datetime_guard.2.1
  intro v hv
  have hv' : Value.dict pcfMarkerDict = v := by
    simpa [lookupW, lookupD, pcfMarkerDict] using hv
  exact ⟨some ⟨some ⟨some ⟨some "date and time"⟩⟩⟩, by rw [← hv']; rfl⟩

/-- A union member only validates successfully when its `$type` literal
admits the mapping's discriminator, and the resulting instance carries that
member's literal as its tag. -/
theorem decMember_ok_tag {lit : String}
    {vd : Option Value → InfoData → Except Fail (Option ICFVal)}
    {d : List (String × Value)} {inst : ICF}
    (h : decMember lit vd d = .ok inst) :
    inst.tag = lit ∧ tagAdmissible (lookupW d "$type" "type") [lit] = true := by
  simp only [decMember] at h
  split at h
  · next =>
    rename_i htag
    refine ⟨?_, htag⟩
    simp only [except_pure_eq_ok, Except.ok.injEq] at h
    rw [← h]
  · exact absurd h (by simp)
  · exact absurd h (by simp)
  · exact absurd h (by simp)

/-- A successful smart-union decode comes from some member of the list. -/
theorem tryMembers_ok
    {ms : List (String × (Option Value → InfoData → Except Fail (Option ICFVal)))}
    {d : List (String × Value)} {inst : ICF}
    (h : tryMembers ms d = .ok inst) :
    ∃ lit vd, (lit, vd) ∈ ms ∧ decMember lit vd d = .ok inst := by
  induction ms with
  | nil => exact absurd h (by simp [tryMembers])
  | cons hd tl ih =>
    obtain ⟨lit, vd⟩ := hd
    simp only [tryMembers] at h
    split at h
    · next inst' heq =>
      simp only [except_pure_eq_ok, Except.ok.injEq] at h
      exact ⟨lit, vd, List.mem_cons_self _ _, by rw [h] at heq; exact heq⟩
    · exact absurd h (by simp)
    · exact absurd h (by simp)
    · obtain ⟨lit', vd', hmem, hdec⟩ := ih h
      exact ⟨lit', vd', List.mem_cons_of_mem _ hmem, hdec⟩

/-- C4: decoding a mapping against the custom-field variant set dispatches
on the `$type` discriminator: a successful decode yields an instance of
exactly the member whose literal equals the mapping's `$type`; a `$type`
outside the member literals makes decoding fail; the scenario mapping with
`$type` `SingleEnumIssueCustomField` decodes to that variant holding a
nested `EnumBundleElement`, and an unrecognized `$type` raises the union
validation error. -/
theorem icf_discriminator_dispatch :
    (∀ (d : List (String × Value)) (t : String) (inst : ICF),
      lookupW d "$type" "type" = some (.str t) →
      decodeIssueCustomField (.dict d) = .ok inst → inst.tag = t)
    ∧ (∀ (d : List (String × Value)) (t : String),
        lookupW d "$type" "type" = some (.str t) → t ∉ icfTags →
        ∀ inst : ICF, decodeIssueCustomField (.dict d) ≠ .ok inst)
    ∧ decodeIssueCustomField (.dict
        [("$type", .str "SingleEnumIssueCustomField"), ("id", .str "110-49"),
         ("name", .str "Type"),
         ("value", .dict
           [("$type", .str "EnumBundleElement"), ("id", .str "96-38"),
            ("name", .str "Value One")])])
        = .ok ⟨"SingleEnumIssueCustomField", some "110-49", some "Type", none,
            some (.elem ⟨some "96-38", some "Value One"⟩)⟩
    ∧ decodeIssueCustomField (.dict [("$type", .str "NotACustomField")])
        = .error (.invalid "ValidationError: no union member matched") := by
  have key : ∀ (d : List (String × Value)) (t : String) (inst : ICF),
      lookupW d "$type" "type" = some (.str t) →
      decodeIssueCustomField (.dict d) = .ok inst →
      inst.tag = t ∧ inst.tag ∈ icfTags := by
    intro d t inst hlook hdec
    simp only [decodeIssueCustomField] at hdec
    obtain ⟨lit, vd, hmem, hok⟩ := tryMembers_ok hdec
    obtain ⟨htag, hadm⟩ := decMember_ok_tag hok
    rw [hlook] at hadm
    simp only [tagAdmissible, List.contains_cons, List.contains_nil,
      Bool.or_false, beq_iff_eq] at hadm
    refine ⟨by rw [htag, hadm], ?_⟩
    rw [htag]
    exact List.mem_map_of_mem Prod.fst hmem
  refine ⟨fun d t inst hl hd => (key d t inst hl hd).1, ?_, by rfl, by rfl⟩
  intro d t hl hnot inst hdec
  obtain ⟨h1, h2⟩ := key d t inst hl hdec
  rw [h1] at h2
  exact hnot h2

/-- Witness for the dispatch theorem: applied to the enum scenario mapping
(whose `$type` both exists and decodes) and to the unknown-tag mapping. -/
theorem icf_discriminator_dispatch_witness :
    (⟨"SingleEnumIssueCustomField", some "110-49", some "Type", none,
        some (.elem ⟨some "96-38", some "Value One"⟩)⟩ : ICF).tag
      = "SingleEnumIssueCustomField"
    ∧ decodeIssueCustomField (.dict [("$type", .str "NotACustomField")])
        ≠ .ok ⟨"NotACustomField", none, none, none, none⟩ := by
  constructor
  · exact icf_discriminator_dispatch.1
      [("$type", .str "SingleEnumIssueCustomField"), ("id", .str "110-49"),
       ("name", .str "Type"),
       ("value", .dict
         [("$type", .str "EnumBundleElement"), ("id", .str "96-38"),
          ("name", .str "Value One")])]
      "SingleEnumIssueCustomField" _ (by rfl) (by rfl)
  · exact icf_discriminator_dispatch.2.1
      [("$type", .str "NotACustomField")] "NotACustomField"
      (by rfl) (by decide) _

/-- C8: in the deep merge, a key bound to lists on both sides is merged
element-wise (each element pair going through `deep_update` again) when the
lengths agree, raises the length-mismatch `TypeError` when they differ, and
a key bound to values of different runtime types raises the type-mismatch
`TypeError`. -/
theorem deep_merge_list_and_type_rules :
    (∀ (d : List (String × Value)) (k : String) (xs ys vs : List Value),
      lookupD d k = some (.list xs) → xs.length = ys.length →
      zipMerge xs ys = .ok vs →
      mergeStep d k (.list ys) = .ok (setD d k (.list vs)))
    ∧ (∀ (d : List (String × Value)) (k : String) (xs ys : List Value),
        lookupD d k = some (.list xs) → xs.length ≠ ys.length →
        mergeStep d k (.list ys)
          = .error "TypeError: destination list length differs from source list length")
    ∧ (∀ (d : List (String × Value)) (k : String) (old v : Value),
        lookupD d k = some old → pyTypeOf old ≠ pyTypeOf v →
        mergeStep d k v = .error "TypeError: destination type differs from source type")
    ∧ (∀ (x y : Value) (xs ys : List Value),
        zipMerge (x :: xs) (y :: ys)
          = do pure ((← deepUpdateVal x y) :: (← zipMerge xs ys))) := by
  refine ⟨fun d k xs ys vs hl hlen hzip => ?_, fun d k xs ys hl hlen => ?_,
    fun d k old v hl hty => ?_, fun x y xs ys => ?_⟩
  · simp only [mergeStep, hl]
    simp [pyTypeOf, hlen, hzip]
  · simp only [mergeStep, hl, pyTypeOf, bne_self_eq_false, Bool.false_eq_true,
      if_false]
    rw [if_pos (by simpa using hlen)]
    rfl
  · simp only [mergeStep, hl]
    rw [if_pos (by simpa using hty)]
    rfl
  · rw [zipMerge]

/-- Witness for the list-merge rules: a singleton list of dicts merged
element-wise, a length mismatch, and an int written over a string. -/
theorem deep_merge_list_and_type_rules_witness :
    mergeStep [("k", .list [.dict []])] "k" (.list [.dict [("a", .int 1)]])
      = .ok [("k", .list [.dict [("a", .int 1)]])]
    ∧ mergeStep [("k", .list [.dict []])] "k" (.list [])
      = .error "TypeError: destination list length differs from source list length"
    ∧ mergeStep [("k", .str "s")] "k" (.int 3)
      = .error "TypeError: destination type differs from source type" := by
  refine ⟨?_, ?_, ?_⟩
  · have h := deep_merge_list_and_type_rules.1 [("k", .list [.dict []])] "k"
      [.dict []] [.dict [("a", .int 1)]] [.dict [("a", .int 1)]]
      (by simp [lookupD]) (by simp)
      (by simp [zipMerge, deepUpdateVal, mergeInto, mergeStep, lookupD])
    simpa [setD] using h
  · exact deep_merge_list_and_type_rules.2.1 [("k", .list [.dict []])] "k"
      [.dict []] [] (by simp [lookupD]) (by simp)
  · exact deep_merge_list_and_type_rules.2.2.1 [("k", .str "s")] "k"
      (.str "s") (.int 3) (by simp [lookupD]) (by simp [pyTypeOf])

/-- A value looked up in a field tree is itself a field tree. -/
theorem isTree_lookup {d : List (String × Value)} {k : String} {v : Value}
    (hd : isTreeFields d = true) (h : lookupD d k = some v) :
    isTreeVal v = true := by
  induction d with
  | nil => exact absurd h (by simp [lookupD])
  | cons hd' tl ih =>
    obtain ⟨k', v'⟩ := hd'
    simp only [isTreeFields, Bool.and_eq_true] at hd
    simp only [lookupD] at h
    split at h
    · cases h
      exact hd.1
    · exact ih hd.2 h

/-- Tree-ness is preserved by in-place update with a tree value. -/
theorem isTree_setD {d : List (String × Value)} {k : String} {v : Value}
    (hd : isTreeFields d = true) (hv : isTreeVal v = true) :
    isTreeFields (setD d k v) = true := by
  induction d with
  | nil => simp [setD, isTreeFields]
  | cons hd' tl ih =>
    obtain ⟨k', v'⟩ := hd'
    simp only [isTreeFields, Bool.and_eq_true] at hd
    simp only [setD]
    split
    · simp [isTreeFields, hv, hd.2]
    · simp [isTreeFields, hd.1, ih hd.2]

/-- Tree-ness distributes over concatenation. -/
theorem isTree_append {a b : List (String × Value)} (ha : isTreeFields a = true)
    (hb : isTreeFields b = true) : isTreeFields (a ++ b) = true := by
  induction a with
  | nil => simpa using hb
  | cons hd' tl ih =>
    obtain ⟨k', v'⟩ := hd'
    simp only [isTreeFields, Bool.and_eq_true] at ha ⊢
    exact ⟨ha.1, ih ha.2⟩

/-- Merging one field tree into another always succeeds and yields a field
tree: every tree node is a dict, so the runtime type check always passes
and a leaf (empty dict) unions with any subtree. -/
theorem mergeInto_trees (s d : List (String × Value))
    (hd : isTreeFields d = true) (hs : isTreeFields s = true) :
    ∃ r, mergeInto d s = .ok r ∧ isTreeFields r = true := by
  match s with
  | [] => exact ⟨d, by simp [mergeInto], hd⟩
  | (k, v) :: rest =>
    have hv : isTreeVal v = true := by
      simp only [isTreeFields, Bool.and_eq_true] at hs
      exact hs.1
    have hrest : isTreeFields rest = true := by
      simp only [isTreeFields, Bool.and_eq_true] at hs
      exact hs.2
    match v, hv with
    | .dict sub, hv =>
      have hsub : isTreeFields sub = true := by simpa [isTreeVal] using hv
      have hstep : ∃ d', mergeStep d k (.dict sub) = .ok d'
          ∧ isTreeFields d' = true := by
        cases hl : lookupD d k with
        | none =>
          refine ⟨d ++ [(k, .dict sub)], by simp [mergeStep, hl], ?_⟩
          exact isTree_append hd (by simp [isTreeFields, isTreeVal, hsub])
        | some old =>
          have hold : isTreeVal old = true := isTree_lookup hd hl
          match old, hold with
          | .dict dOld, hold =>
            have hdOld : isTreeFields dOld = true := by
              simpa [isTreeVal] using hold
            obtain ⟨r', hr', htr'⟩ := mergeInto_trees sub dOld hdOld hsub
            refine ⟨setD d k (.dict r'), ?_, ?_⟩
            · simp [mergeStep, hl, pyTypeOf, hr']
            · exact isTree_setD hd (by simpa [isTreeVal] using htr')
      obtain ⟨d', hd', htd'⟩ := hstep
      obtain ⟨r, hr, htr⟩ := mergeInto_trees rest d' htd' hrest
      refine ⟨r, ?_, htr⟩
      rw [mergeInto, hd']
      simpa using hr
termination_by sizeOf s
decreasing_by
  all_goals simp_wf <;> omega

/-- Folding several field trees into a tree via `deep_update` yields a
field tree. -/
theorem deep_update_trees (ms : List (List (String × Value)))
    (d : List (String × Value)) (r : List (String × Value))
    (hd : isTreeFields d = true) (hms : ∀ m ∈ ms, isTreeFields m = true)
    (h : deep_update d ms = .ok r) : isTreeFields r = true := by
  induction ms generalizing d with
  | nil =>
    simp only [deep_update, except_pure_eq_ok, Except.ok.injEq] at h
    rw [← h]
    exact hd
  | cons m tl ih =>
    obtain ⟨d', hd', htd'⟩ := mergeInto_trees m d hd (hms m (by simp))
    rw [deep_update, hd'] at h
    exact ih d' htd' (fun m' hm' => hms m' (List.mem_cons_of_mem _ hm'))
      (by simpa using h)

mutual

/-- `type_to_fields` only produces field trees. -/
theorem typeToFields_tree (t : FType) (r : List (String × Value))
    (h : typeToFields t = .ok r) : isTreeFields r = true := by
  match t with
  | .scalar =>
    simp only [typeToFields, except_pure_eq_ok, Except.ok.injEq] at h
    rw [← h]
    rfl
  | .ref props => exact schemaToFields_tree props r (by simpa [typeToFields] using h)
  | .arr item => exact typeToFields_tree item r (by simpa [typeToFields] using h)
  | .unionOf subTypes =>
    rw [typeToFields] at h
    cases hts : typeToFieldsList subTypes with
    | error e => rw [hts] at h; exact absurd h (by simp)
    | ok rs =>
      rw [hts] at h
      simp only [except_bind_ok] at h
      exact deep_update_trees rs [] r rfl (typeToFieldsList_tree subTypes rs hts) h

/-- Each tree produced for a union's sub-types is a field tree. -/
theorem typeToFieldsList_tree (ts : List FType)
    (rs : List (List (String × Value))) (h : typeToFieldsList ts = .ok rs) :
    ∀ m ∈ rs, isTreeFields m = true := by
  match ts with
  | [] =>
    simp only [typeToFieldsList, except_pure_eq_ok, Except.ok.injEq] at h
    rw [← h]
    intro m hm
    exact absurd hm (by simp)
  | t :: tl =>
    rw [typeToFieldsList] at h
    cases ht : typeToFields t with
    | error e => rw [ht] at h; exact absurd h (by simp)
    | ok r1 =>
      rw [ht] at h
      cases htl : typeToFieldsList tl with
      | error e => rw [htl] at h; exact absurd h (by simp)
      | ok rtl =>
        rw [htl] at h
        simp only [except_bind_ok, except_pure_eq_ok, Except.ok.injEq] at h
        rw [← h]
        intro m hm
        rcases List.mem_cons.mp hm with hm | hm
        · rw [hm]; exact typeToFields_tree t r1 ht
        · exact typeToFieldsList_tree tl rtl htl m hm

/-- `schema_to_fields` only produces field trees. -/
theorem schemaToFields_tree (props : List (String × FType))
    (r : List (String × Value)) (h : schemaToFields props = .ok r) :
    isTreeFields r = true := by
  match props with
  | [] =>
    simp only [schemaToFields, except_pure_eq_ok, Except.ok.injEq] at h
    rw [← h]
    rfl
  | (name, t) :: rest =>
    rw [schemaToFields] at h
    cases ht : typeToFields t with
    | error e => rw [ht] at h; exact absurd h (by simp)
    | ok rt =>
      rw [ht] at h
      cases hrest : schemaToFields rest with
      | error e => rw [hrest] at h; exact absurd h (by simp)
      | ok rr =>
        rw [hrest] at h
        simp only [except_bind_ok, except_pure_eq_ok, Except.ok.injEq] at h
        rw [← h]
        simp only [isTreeFields, isTreeVal, Bool.and_eq_true]
        exact ⟨typeToFields_tree t rt ht, schemaToFields_tree rest rr hrest⟩

end

/-- C7 counterexample: a leaf (empty sub-tree) and a non-empty sub-tree
under the same field name merge without error — a leaf is just an empty
dict, so `deep_update` deep-unions it with the non-empty dict. -/
theorem leaf_subtree_merge_succeeds :
    deep_update [("a", .dict [])] [[("a", .dict [("b", .dict [])])]]
      = .ok [("a", .dict [("b", .dict [])])]
    ∧ ¬∃ e, deep_update [("a", .dict [])] [[("a", .dict [("b", .dict [])])]]
        = .error e := by
  have h1 : deep_update [("a", .dict [])] [[("a", .dict [("b", .dict [])])]]
      = .ok [("a", .dict [("b", .dict [])])] := by
    simp [deep_update, mergeInto, mergeStep, lookupD, setD, pyTypeOf]
  refine ⟨h1, ?_⟩
  rintro ⟨e, he⟩
  rw [h1] at he
  exact absurd he (by simp)

/-- C7 (amended): within field trees the merge cannot fail at all — every
node of a tree produced by the schema walk is a dict (a leaf being the
empty dict), the runtime type check therefore always passes, and a leaf
deep-unions with a non-empty subtree; `deep_update` only fails on values
of different runtime types or lists of different lengths, which field
trees never contain. -/
theorem field_tree_merge_total :
    (∀ (d s : List (String × Value)), isTreeFields d = true →
      isTreeFields s = true →
      ∃ r, mergeInto d s = .ok r ∧ isTreeFields r = true)
    ∧ (∀ (t : FType) (r : List (String × Value)),
        typeToFields t = .ok r → isTreeFields r = true) :=
  ⟨fun d s hd hs => mergeInto_trees s d hd hs,
   fun t r h => typeToFields_tree t r h⟩

/-- Witness for the tree-merge totality: the leaf vs non-empty-subtree
trees satisfy the tree hypotheses and their merge succeeds. -/
theorem field_tree_merge_total_witness :
    isTreeFields [("a", .dict [])] = true
    ∧ isTreeFields [("a", .dict [("b", .dict [])])] = true
    ∧ ∃ r, mergeInto [("a", .dict [])] [("a", .dict [("b", .dict [])])] = .ok r
        ∧ isTreeFields r = true := by
  have ha : isTreeFields [("a", .dict [])] = true := by
    simp [isTreeFields, isTreeVal]
  have hb : isTreeFields [("a", .dict [("b", .dict [])])] = true := by
    simp [isTreeFields, isTreeVal]
  exact ⟨ha, hb, field_tree_merge_total.1 _ _ ha hb⟩

/-- C3: for the variant set `{A, B, C}`, the derived field-selection string
of the union equals the serialization of the deep merge — one binary
`deep_update` after another, in member order — of the field trees computed
independently for each member; field order is first appearance, as the
merge updates existing keys in place and appends new ones. -/
theorem model_to_field_names_union_merge
    (A B C : List (String × FType)) :
    model_to_field_names [A, B, C] =
      (do
        let tA ← model_to_fields A
        let tB ← model_to_fields B
        let tC ← model_to_fields C
        let m1 ← deep_update [] [tA]
        let m2 ← deep_update m1 [tB]
        let m3 ← deep_update m2 [tC]
        pure (if fieldsToCsv m3 = "" then none else some (fieldsToCsv m3))) := by
  simp only [model_to_field_names, modelToFieldsList]
  cases hA : model_to_fields A with
  | error e => simp [hA]
  | ok tA =>
    cases hB : model_to_fields B with
    | error e => simp [hA, hB]
    | ok tB =>
      cases hC : model_to_fields C with
      | error e => simp [hA, hB, hC]
      | ok tC =>
        simp only [hA, hB, hC, except_bind_ok, except_pure_eq_ok]
        cases h1 : mergeInto [] tA with
        | error e => simp [deep_update, h1]
        | ok m1 =>
          cases h2 : mergeInto m1 tB with
          | error e => simp [deep_update, h1, h2]
          | ok m2 =>
            cases h3 : mergeInto m2 tC with
            | error e => simp [deep_update, h1, h2, h3]
            | ok m3 => simp [deep_update, h1, h2, h3]

/-- Lookup skips a prefix that does not bind the key. -/
theorem lookupD_append_none {P R : List (String × Value)} {k : String}
    (h : lookupD P k = none) : lookupD (P ++ R) k = lookupD R k := by
  induction P with
  | nil => simp
  | cons hd tl ih =>
    obtain ⟨k', v'⟩ := hd
    simp only [lookupD] at h ⊢
    split at h
    · exact absurd h (by simp)
    · next hne =>
      rw [if_neg hne]
      exact ih h

/-- Lookup fails on a concatenation when it fails on both parts. -/
theorem lookupD_append_none_of_none {A B : List (String × Value)} {k : String}
    (ha : lookupD A k = none) (hb : lookupD B k = none) :
    lookupD (A ++ B) k = none := by
  rw [lookupD_append_none ha]
  exact hb

/-- In-place update distributes over a prefix that does not bind the key. -/
theorem setD_append_none {P R : List (String × Value)} {k : String} {v : Value}
    (h : lookupD P k = none) : setD (P ++ R) k v = P ++ setD R k v := by
  induction P with
  | nil => simp
  | cons hd tl ih =>
    obtain ⟨k', v'⟩ := hd
    simp only [lookupD] at h
    split at h
    · exact absurd h (by simp)
    · next hne =>
      rw [List.cons_append, setD, if_neg hne, List.cons_append, ih h]

/-- Lookup for a different key passes over an entry in the middle. -/
theorem lookupD_middle_skip {A B : List (String × Value)} {k0 k : String}
    {v0 : Value} (h : k0 ≠ k) :
    lookupD (A ++ (k0, v0) :: B) k = lookupD (A ++ B) k := by
  induction A with
  | nil => simp [lookupD, h]
  | cons hd tl ih =>
    obtain ⟨k', v'⟩ := hd
    rw [List.cons_append, List.cons_append, lookupD, lookupD]
    split
    · rfl
    · exact ih

/-- The unset-excluding dump binds only wire names of the instance. -/
theorem dumpU_lookup_none {fs : List EField} {w : String}
    (h : ¬w ∈ wiresL fs) : lookupD (dumpU fs) w = none := by
  induction fs with
  | nil => simp [dumpU, lookupD]
  | cons f tl ih =>
    obtain ⟨w', dflt, a⟩ := f
    simp only [wiresL, List.map_cons, List.mem_cons, EField.wireOf] at h
    push_neg at h
    have htl : ¬w ∈ wiresL tl := by simpa [wiresL] using h.2
    match a with
    | some v =>
      rw [dumpU, lookupD, if_neg (fun hh => h.1 hh.symm)]
      exact ih htl
    | none =>
      rw [dumpU]
      exact ih htl

/-- The merged entries of assigned fields bind only wire names. -/
theorem mergA_lookup_none {fs : List EField} {w : String}
    (h : ¬w ∈ wiresL fs) : lookupD (mergA fs) w = none := by
  induction fs with
  | nil => simp [mergA, lookupD]
  | cons f tl ih =>
    obtain ⟨w', dflt, a⟩ := f
    simp only [wiresL, List.map_cons, List.mem_cons, EField.wireOf] at h
    push_neg at h
    have htl : ¬w ∈ wiresL tl := by simpa [wiresL] using h.2
    match a with
    | some v =>
      rw [mergA, lookupD, if_neg (fun hh => h.1 hh.symm)]
      exact ih htl
    | none =>
      rw [mergA]
      exact ih htl

/-- The appended entries of defaulted fields bind only wire names. -/
theorem mergB_lookup_none {fs : List EField} {w : String}
    (h : ¬w ∈ wiresL fs) : lookupD (mergB fs) w = none := by
  induction fs with
  | nil => simp [mergB, lookupD]
  | cons f tl ih =>
    obtain ⟨w', dflt, a⟩ := f
    simp only [wiresL, List.map_cons, List.mem_cons, EField.wireOf] at h
    push_neg at h
    have htl : ¬w ∈ wiresL tl := by simpa [wiresL] using h.2
    match a, dflt with
    | some v, _ =>
      rw [mergB]
      exact ih htl
    | none, some v =>
      rw [mergB]
      split
      · exact ih htl
      · rw [lookupD, if_neg (fun hh => h.1 hh.symm)]
        exact ih htl
    | none, none =>
      rw [mergB]
      exact ih htl

/-- Both dumps of a sequence have the sequence's length. -/
theorem dumpUList_length (xs : List EVal) : (dumpUList xs).length = xs.length := by
  induction xs with
  | nil => rfl
  | cons x tl ih => rw [dumpUList]; simpa using ih

/-- Both dumps of a sequence have the sequence's length. -/
theorem dumpNList_length (xs : List EVal) : (dumpNList xs).length = xs.length := by
  induction xs with
  | nil => rfl
  | cons x tl ih => rw [dumpNList]; simpa using ih

/-- Distinctness helper: a `contains`-check failure means non-membership. -/
theorem not_mem_of_contains_false {l : List String} {a : String}
    (h : l.contains a = false) : ¬a ∈ l := by
  intro hmem
  have h' : List.elem a l = false := h
  rw [List.elem_eq_true_of_mem hmem] at h'
  exact absurd h' (by simp)

/-- An explicit null is exactly the null scalar. -/
theorem isNullE_eq_null {v : EVal} (h : isNullE v = true) : v = .prim .null := by
  match v with
  | .prim .null => rfl
  | .prim (.bool _) | .prim (.int _) | .prim (.float _) | .prim (.str _)
  | .prim (.dt _) | .prim (.date _) | .prim (.list _) | .prim (.dict _) =>
    exact absurd h (by simp [isNullE])
  | .obj _ | .seq _ => exact absurd h (by simp [isNullE])

mutual

/-- Core encode-merge lemma: merging the none-excluding dump of an
instance into its unset-excluding dump — with an already-processed prefix
`P` and an appended suffix `E` that bind none of the instance's wire
names — updates each assigned field in place to its merged value and
appends each unset field with a non-null default at the end. -/
theorem mergeInto_dump (fs : List EField) (P E : List (String × Value))
    (hfl : wfFieldList fs = true) (hnd : nodupStr (wiresL fs) = true)
    (hP : ∀ w ∈ wiresL fs, lookupD P w = none)
    (hE : ∀ w ∈ wiresL fs, lookupD E w = none) :
    mergeInto (P ++ dumpU fs ++ E) (dumpN fs)
      = .ok (P ++ mergA fs ++ E ++ mergB fs) :=
  match fs, hfl, hnd, hP, hE with
  | [], _, _, _, _ => by simp [dumpU, dumpN, mergA, mergB, mergeInto]
  | .mk w dflt (some v) :: rest, hfl, hnd, hP, hE => by
    have hwmem : w ∈ wiresL (EField.mk w dflt (some v) :: rest) := by
      simp [wiresL, EField.wireOf]
    simp only [wfFieldList, Bool.and_eq_true] at hfl
    obtain ⟨⟨hwd, hwa⟩, hfl'⟩ := hfl
    simp only [wiresL, List.map_cons, EField.wireOf, nodupStr,
      Bool.and_eq_true, Bool.not_eq_true'] at hnd
    have hnw : ¬w ∈ wiresL rest := not_mem_of_contains_false (by
      simpa [wiresL] using hnd.1)
    have hnd' : nodupStr (wiresL rest) = true := by simpa [wiresL] using hnd.2
    have hP' : ∀ w' ∈ wiresL rest, lookupD P w' = none := fun w' h =>
      hP w' (by simp [wiresL, EField.wireOf]; right; simpa [wiresL] using h)
    have hE' : ∀ w' ∈ wiresL rest, lookupD E w' = none := fun w' h =>
      hE w' (by simp [wiresL, EField.wireOf]; right; simpa [wiresL] using h)
    have hone : ∀ w' ∈ wiresL rest, ∀ m : Value, lookupD [(w, m)] w' = none := by
      intro w' h m
      have : ¬w = w' := fun hh => hnw (hh ▸ h)
      simp [lookupD, this]
    rcases Bool.eq_false_or_eq_true (isNullE v) with hnull | hnull
    · -- assigned, explicit null: untouched by the merge
      have hveq := isNullE_eq_null hnull
      subst hveq
      simp only [dumpU, dumpN, mergA, mergB, hnull, eq_self_iff_true,
        if_true, dumpUVal, mVal]
      have hrec := mergeInto_dump rest (P ++ [(w, Value.null)]) E hfl' hnd'
        (fun w' h => lookupD_append_none_of_none (hP' w' h) (hone w' h _))
        hE'
      rw [show P ++ (w, Value.null) :: dumpU rest ++ E
          = (P ++ [(w, Value.null)]) ++ dumpU rest ++ E by simp]
      rw [hrec]
      simp
    · -- assigned, non-null: the head entry of the dump is merged in place
      have hwv : wfVal v = true := by simpa [wfOptVal] using hwa
      simp only [dumpU, dumpN, mergA, mergB, hnull, Bool.false_eq_true,
        if_false]
      rw [mergeInto]
      have hlook : lookupD (P ++ (w, dumpUVal v) :: dumpU rest ++ E) w
          = some (dumpUVal v) := by
        rw [List.append_assoc, List.cons_append,
          lookupD_append_none (hP w hwmem)]
        simp [lookupD]
      have hstep := mergeVals_dump v hwv hnull
        (P ++ (w, dumpUVal v) :: dumpU rest ++ E) w hlook
      have hset : setD (P ++ (w, dumpUVal v) :: dumpU rest ++ E) w (mVal v)
          = (P ++ [(w, mVal v)]) ++ dumpU rest ++ E := by
        rw [List.append_assoc, List.cons_append,
          setD_append_none (hP w hwmem)]
        simp [setD]
      rw [hstep, hset]
      simp only [except_bind_ok]
      have hrec := mergeInto_dump rest (P ++ [(w, mVal v)]) E hfl' hnd'
        (fun w' h => lookupD_append_none_of_none (hP' w' h) (hone w' h _))
        hE'
      rw [hrec]
      simp
  | .mk w dflt none :: rest, hfl, hnd, hP, hE => by
    have hwmem : w ∈ wiresL (EField.mk w dflt none :: rest) := by
      simp [wiresL, EField.wireOf]
    simp only [wfFieldList, Bool.and_eq_true] at hfl
    obtain ⟨⟨hwd, hwa⟩, hfl'⟩ := hfl
    simp only [wiresL, List.map_cons, EField.wireOf, nodupStr,
      Bool.and_eq_true, Bool.not_eq_true'] at hnd
    have hnw : ¬w ∈ wiresL rest := not_mem_of_contains_false (by
      simpa [wiresL] using hnd.1)
    have hnd' : nodupStr (wiresL rest) = true := by simpa [wiresL] using hnd.2
    have hP' : ∀ w' ∈ wiresL rest, lookupD P w' = none := fun w' h =>
      hP w' (by simp [wiresL, EField.wireOf]; right; simpa [wiresL] using h)
    have hE' : ∀ w' ∈ wiresL rest, lookupD E w' = none := fun w' h =>
      hE w' (by simp [wiresL, EField.wireOf]; right; simpa [wiresL] using h)
    have hone : ∀ w' ∈ wiresL rest, ∀ m : Value, lookupD [(w, m)] w' = none := by
      intro w' h m
      have : ¬w = w' := fun hh => hnw (hh ▸ h)
      simp [lookupD, this]
    match dflt, hwd with
    | some v, hwd =>
      rcases Bool.eq_false_or_eq_true (isNullE v) with hnull | hnull
      · -- unset with null default: omitted everywhere
        simp only [dumpU, dumpN, mergA, mergB, hnull, eq_self_iff_true,
          if_true]
        exact mergeInto_dump rest P E hfl' hnd' hP' hE'
      · -- unset with non-null default: appended at the end
        simp only [dumpU, dumpN, mergA, mergB, hnull, Bool.false_eq_true,
          if_false]
        rw [mergeInto]
        have hlook : lookupD (P ++ dumpU rest ++ E) w = none := by
          rw [List.append_assoc]
          exact lookupD_append_none_of_none (hP w hwmem)
            (lookupD_append_none_of_none (dumpU_lookup_none hnw) (hE w hwmem))
        rw [mergeStep, hlook]
        simp only [except_pure_eq_ok, except_bind_ok]
        have hrec := mergeInto_dump rest P (E ++ [(w, dumpNVal v)]) hfl' hnd'
          hP'
          (fun w' h => lookupD_append_none_of_none (hE' w' h) (hone w' h _))
        rw [show P ++ dumpU rest ++ E ++ [(w, dumpNVal v)]
            = P ++ dumpU rest ++ (E ++ [(w, dumpNVal v)]) by simp]
        rw [hrec]
        simp
    | none, _ =>
      simp only [dumpU, dumpN, mergA, mergB]
      exact mergeInto_dump rest P E hfl' hnd' hP' hE'
termination_by sizeOf fs
decreasing_by all_goals simp_wf <;> omega

/-- Value-level merge: for a well-formed non-null assigned value, one merge
step writes the merged value over the dumped one. -/
theorem mergeVals_dump (v : EVal) (hwf : wfVal v = true)
    (hnn : isNullE v = false) (d : List (String × Value)) (w : String)
    (hl : lookupD d w = some (dumpUVal v)) :
    mergeStep d w (dumpNVal v) = .ok (setD d w (mVal v)) :=
  match v, hwf, hnn, hl with
  | .prim p, hwf, _, hl => by
    have hsc : isScalarV p = true := by simpa [wfVal] using hwf
    rw [dumpUVal] at hl
    rw [dumpNVal, mVal, mergeStep, hl]
    simp only [bne_self_eq_false, Bool.false_eq_true, if_false]
    match p, hsc with
    | .null, _ => rfl
    | .bool _, _ => rfl
    | .int _, _ => rfl
    | .float _, _ => rfl
    | .str _, _ => rfl
    | .dt _, _ => rfl
    | .date _, _ => rfl
  | .obj gs, hwf, _, hl => by
    simp only [wfVal, Bool.and_eq_true] at hwf
    rw [dumpUVal] at hl
    rw [dumpNVal, mVal, mergeStep, hl]
    have hrec := mergeInto_dump gs [] [] hwf.2 hwf.1
      (by simp [lookupD]) (by simp [lookupD])
    simp only [List.nil_append, List.append_nil] at hrec
    simp [pyTypeOf, hrec]
  | .seq xs, hwf, _, hl => by
    have hws : wfSeq xs = true := by simpa [wfVal] using hwf
    rw [dumpUVal] at hl
    rw [dumpNVal, mVal, mergeStep, hl]
    have hzip := zipMerge_dump xs hws
    simp [pyTypeOf, dumpUList_length, dumpNList_length, hzip]
termination_by sizeOf v
decreasing_by all_goals simp_wf

/-- Sequence elements (always nested instances) merge element-wise to
their merged dicts. -/
theorem zipMerge_dump (xs : List EVal) (hws : wfSeq xs = true) :
    zipMerge (dumpUList xs) (dumpNList xs) = .ok (mValList xs) :=
  match xs, hws with
  | [], _ => by simp [dumpUList, dumpNList, mValList, zipMerge]
  | .obj gs :: tl, hws => by
    simp only [wfSeq, Bool.and_eq_true] at hws
    obtain ⟨⟨hobj, hwx⟩, htl⟩ := hws
    simp only [wfVal, Bool.and_eq_true] at hwx
    rw [dumpUList, dumpNList, mValList, zipMerge]
    rw [dumpUVal, dumpNVal, mVal]
    have hrec := mergeInto_dump gs [] [] hwx.2 hwx.1
      (by simp [lookupD]) (by simp [lookupD])
    simp only [List.nil_append, List.append_nil] at hrec
    rw [deepUpdateVal]
    simp [hrec, zipMerge_dump tl htl]
  | .prim p :: tl, hws => by
    exact absurd hws (by simp [wfSeq, isObjE])
  | .seq ys :: tl, hws => by
    exact absurd hws (by simp [wfSeq, isObjE])
termination_by sizeOf xs
decreasing_by all_goals simp_wf <;> omega

end

/-- Lookup in the merged output, by field kind: assigned fields are bound
to their merged value, unset fields with a non-null default to the dumped
default, and all other unset fields are absent. -/
theorem merged_lookup (fs : List EField) (hnd : nodupStr (wiresL fs) = true) :
    (∀ w dflt v, EField.mk w dflt (some v) ∈ fs →
      lookupD (mergA fs ++ mergB fs) w = some (mVal v))
    ∧ (∀ w v, EField.mk w (some v) none ∈ fs → isNullE v = false →
      lookupD (mergA fs ++ mergB fs) w = some (dumpNVal v))
    ∧ (∀ w v, EField.mk w (some v) none ∈ fs → isNullE v = true →
      lookupD (mergA fs ++ mergB fs) w = none)
    ∧ (∀ w, EField.mk w none none ∈ fs →
      lookupD (mergA fs ++ mergB fs) w = none) := by
  induction fs with
  | nil => exact ⟨fun w dflt v h => absurd h (by simp),
      fun w v h _ => absurd h (by simp),
      fun w v h _ => absurd h (by simp),
      fun w h => absurd h (by simp)⟩
  | cons f0 rest ih =>
    obtain ⟨w0, d0, a0⟩ := f0
    simp only [wiresL, List.map_cons, EField.wireOf, nodupStr,
      Bool.and_eq_true, Bool.not_eq_true'] at hnd
    have hnw0 : ¬w0 ∈ wiresL rest := not_mem_of_contains_false (by
      simpa [wiresL] using hnd.1)
    have hnd' : nodupStr (wiresL rest) = true := by simpa [wiresL] using hnd.2
    obtain ⟨ih1, ih2, ih3, ih4⟩ := ih hnd'
    have hwne : ∀ {w : String} {dflt a : Option EVal},
        EField.mk w dflt a ∈ rest → ¬w0 = w := by
      intro w dflt a hmem hh
      apply hnw0
      rw [hh]
      simpa [wiresL, EField.wireOf] using List.mem_map_of_mem EField.wireOf hmem
    match a0, d0 with
    | some v0, d0 =>
      refine ⟨fun w dflt v h => ?_, fun w v h hnn => ?_, fun w v h hnn => ?_,
        fun w h => ?_⟩
      · rcases List.mem_cons.mp h with h | h
        · injection h with h1 h2 h3
          injection h3 with h3
          subst h1; subst h3
          simp [mergA, mergB, lookupD]
        · rw [show mergA (EField.mk w0 d0 (some v0) :: rest)
              ++ mergB (EField.mk w0 d0 (some v0) :: rest)
              = (w0, mVal v0) :: (mergA rest ++ mergB rest) by
            simp [mergA, mergB]]
          rw [lookupD, if_neg (hwne h)]
          exact ih1 w dflt v h
      · rcases List.mem_cons.mp h with h | h
        · exact absurd h (by simp)
        · rw [show mergA (EField.mk w0 d0 (some v0) :: rest)
              ++ mergB (EField.mk w0 d0 (some v0) :: rest)
              = (w0, mVal v0) :: (mergA rest ++ mergB rest) by
            simp [mergA, mergB]]
          rw [lookupD, if_neg (hwne h)]
          exact ih2 w v h hnn
      · rcases List.mem_cons.mp h with h | h
        · exact absurd h (by simp)
        · rw [show mergA (EField.mk w0 d0 (some v0) :: rest)
              ++ mergB (EField.mk w0 d0 (some v0) :: rest)
              = (w0, mVal v0) :: (mergA rest ++ mergB rest) by
            simp [mergA, mergB]]
          rw [lookupD, if_neg (hwne h)]
          exact ih3 w v h hnn
      · rcases List.mem_cons.mp h with h | h
        · exact absurd h (by simp)
        · rw [show mergA (EField.mk w0 d0 (some v0) :: rest)
              ++ mergB (EField.mk w0 d0 (some v0) :: rest)
              = (w0, mVal v0) :: (mergA rest ++ mergB rest) by
            simp [mergA, mergB]]
          rw [lookupD, if_neg (hwne h)]
          exact ih4 w h
    | none, some v0 =>
      rcases Bool.eq_false_or_eq_true (isNullE v0) with hnull | hnull
      all_goals refine ⟨fun w dflt v h => ?_, fun w v h hnn => ?_,
        fun w v h hnn => ?_, fun w h => ?_⟩
      -- null default: the merged dict is just that of the rest
      · rcases List.mem_cons.mp h with h | h
        · exact absurd h (by simp)
        · simp only [mergA, mergB, hnull, eq_self_iff_true, if_true]
          exact ih1 w dflt v h
      · rcases List.mem_cons.mp h with h | h
        · injection h with h1 h2 h3
          injection h2 with h2
          subst h2
          rw [hnull] at hnn
          exact absurd hnn (by simp)
        · simp only [mergA, mergB, hnull, eq_self_iff_true, if_true]
          exact ih2 w v h hnn
      · rcases List.mem_cons.mp h with h | h
        · injection h with h1 h2 h3
          injection h2 with h2
          subst h1; subst h2
          simp only [mergA, mergB, hnull, eq_self_iff_true, if_true]
          exact lookupD_append_none_of_none (mergA_lookup_none hnw0)
            (mergB_lookup_none hnw0)
        · simp only [mergA, mergB, hnull, eq_self_iff_true, if_true]
          exact ih3 w v h hnn
      · rcases List.mem_cons.mp h with h | h
        · exact absurd h (by simp)
        · simp only [mergA, mergB, hnull, eq_self_iff_true, if_true]
          exact ih4 w h
      -- non-null default: appended after the assigned entries
      · rcases List.mem_cons.mp h with h | h
        · exact absurd h (by simp)
        · simp only [mergA, mergB, hnull, Bool.false_eq_true, if_false]
          rw [lookupD_middle_skip (hwne h)]
          exact ih1 w dflt v h
      · rcases List.mem_cons.mp h with h | h
        · injection h with h1 h2 h3
          injection h2 with h2
          subst h1; subst h2
          simp only [mergA, mergB, hnull, Bool.false_eq_true, if_false]
          rw [lookupD_append_none (mergA_lookup_none hnw0)]
          simp [lookupD]
        · simp only [mergA, mergB, hnull, Bool.false_eq_true, if_false]
          rw [lookupD_middle_skip (hwne h)]
          exact ih2 w v h hnn
      · rcases List.mem_cons.mp h with h | h
        · injection h with h1 h2 h3
          injection h2 with h2
          subst h2
          rw [hnull] at hnn
          exact absurd hnn (by simp)
        · simp only [mergA, mergB, hnull, Bool.false_eq_true, if_false]
          rw [lookupD_middle_skip (hwne h)]
          exact ih3 w v h hnn
      · rcases List.mem_cons.mp h with h | h
        · exact absurd h (by simp)
        · simp only [mergA, mergB, hnull, Bool.false_eq_true, if_false]
          rw [lookupD_middle_skip (hwne h)]
          exact ih4 w h
    | none, none =>
      refine ⟨fun w dflt v h => ?_, fun w v h hnn => ?_, fun w v h hnn => ?_,
        fun w h => ?_⟩
      · rcases List.mem_cons.mp h with h | h
        · exact absurd h (by simp)
        · simp only [mergA, mergB]
          exact ih1 w dflt v h
      · rcases List.mem_cons.mp h with h | h
        · exact absurd h (by simp)
        · simp only [mergA, mergB]
          exact ih2 w v h hnn
      · rcases List.mem_cons.mp h with h | h
        · exact absurd h (by simp)
        · simp only [mergA, mergB]
          exact ih3 w v h hnn
      · rcases List.mem_cons.mp h with h | h
        · injection h with h1 h2 h3
          subst h1
          simp only [mergA, mergB]
          exact lookupD_append_none_of_none (mergA_lookup_none hnw0)
            (mergB_lookup_none hnw0)
        · simp only [mergA, mergB]
          exact ih4 w h

/-- Well-formedness of a member field's assigned value. -/
theorem wfVal_of_mem {fs : List EField} {w : String} {dflt : Option EVal}
    {v : EVal} (hfl : wfFieldList fs = true)
    (h : EField.mk w dflt (some v) ∈ fs) : wfVal v = true := by
  induction fs with
  | nil => exact absurd h (by simp)
  | cons f0 rest ih =>
    obtain ⟨w0, d0, a0⟩ := f0
    simp only [wfFieldList, Bool.and_eq_true] at hfl
    rcases List.mem_cons.mp h with h | h
    · injection h with h1 h2 h3
      subst h3
      simpa [wfOptVal] using hfl.1.2
    · exact ih hfl.2 h

/-- C1: for every well-formed entity instance, `obj_to_dict` succeeds, a
field explicitly assigned null keeps its wire key bound to null, a
never-assigned field whose resolved default is null (or that has no
default) is omitted entirely, a never-assigned field with a non-null
schema default (such as the `$type` tag) appears under its wire key with
the dumped default, and an assigned nested entity's wire key is bound to
the recursive `obj_to_dict` of that entity (so the rule applies
recursively to nested entity and sequence values, which merge
element-wise). -/
theorem obj_to_dict_spec (fs : List EField) (h : wfFields fs = true) :
    obj_to_dict fs = .ok (mergA fs ++ mergB fs)
    ∧ (∀ w dflt, EField.mk w dflt (some (.prim .null)) ∈ fs →
        lookupD (mergA fs ++ mergB fs) w = some .null)
    ∧ (∀ w v, EField.mk w (some v) none ∈ fs → isNullE v = true →
        lookupD (mergA fs ++ mergB fs) w = none)
    ∧ (∀ w, EField.mk w none none ∈ fs →
        lookupD (mergA fs ++ mergB fs) w = none)
    ∧ (∀ w v, EField.mk w (some v) none ∈ fs → isNullE v = false →
        lookupD (mergA fs ++ mergB fs) w = some (dumpNVal v))
    ∧ (∀ w dflt gs, EField.mk w dflt (some (.obj gs)) ∈ fs →
        lookupD (mergA fs ++ mergB fs) w = some (.dict (mergA gs ++ mergB gs))
        ∧ obj_to_dict gs = .ok (mergA gs ++ mergB gs)) := by
  simp only [wfFields, Bool.and_eq_true] at h
  obtain ⟨hnd, hfl⟩ := h
  obtain ⟨ml1, ml2, ml3, ml4⟩ := merged_lookup fs hnd
  have hmain : obj_to_dict fs = .ok (mergA fs ++ mergB fs) := by
    have hm := mergeInto_dump fs [] [] hfl hnd
      (by simp [lookupD]) (by simp [lookupD])
    simp only [List.nil_append, List.append_nil] at hm
    simp [obj_to_dict, deep_update, hm]
  refine ⟨hmain, fun w dflt hmem => ?_, ml3, ml4, ml2, fun w dflt gs hmem => ?_⟩
  · have := ml1 w dflt (.prim .null) hmem
    simpa [mVal] using this
  · constructor
    · have := ml1 w dflt (.obj gs) hmem
      simpa [mVal] using this
    · have hwv : wfVal (.obj gs) = true := wfVal_of_mem hfl hmem
      simp only [wfVal, Bool.and_eq_true] at hwv
      have hm := mergeInto_dump gs [] [] hwv.2 hwv.1
        (by simp [lookupD]) (by simp [lookupD])
      simp only [List.nil_append, List.append_nil] at hm
      simp [obj_to_dict, deep_update, hm]

/-- Witness for the encode specification, on the instance of the simple
converter test: `$type` defaults to `SimpleModel`, `flag` is unset with a
null default, `shortName` is assigned `Demo`, and `value` is explicitly
assigned null; the output binds `shortName`, keeps the explicit null of
`value`, appends the `$type` default, and omits `flag`. -/
theorem obj_to_dict_spec_witness :
    wfFields
      [EField.mk "$type" (some (.prim (.str "SimpleModel"))) none,
       EField.mk "flag" (some (.prim .null)) none,
       EField.mk "shortName" (some (.prim .null)) (some (.prim (.str "Demo"))),
       EField.mk "value" (some (.prim .null)) (some (.prim .null))] = true
    ∧ obj_to_dict
      [EField.mk "$type" (some (.prim (.str "SimpleModel"))) none,
       EField.mk "flag" (some (.prim .null)) none,
       EField.mk "shortName" (some (.prim .null)) (some (.prim (.str "Demo"))),
       EField.mk "value" (some (.prim .null)) (some (.prim .null))]
      = .ok [("shortName", .str "Demo"), ("value", .null),
          ("$type", .str "SimpleModel")] := by
  have hwf : wfFields
      [EField.mk "$type" (some (.prim (.str "SimpleModel"))) none,
       EField.mk "flag" (some (.prim .null)) none,
       EField.mk "shortName" (some (.prim .null)) (some (.prim (.str "Demo"))),
       EField.mk "value" (some (.prim .null)) (some (.prim .null))] = true := by
    simp +decide [wfFields, nodupStr, wiresL, EField.wireOf, wfFieldList,
      wfOptVal, wfVal, isScalarV]
  refine ⟨hwf, ?_⟩
  have h := (obj_to_dict_spec _ hwf).1
  simpa [mergA, mergB, mVal, dumpNVal, isNullE] using h

/-- Writing one address leaves every other address unchanged. -/
theorem read_write_ne {h : Heap} {a b : Nat} {d : List (String × HVal)}
    (hne : b ≠ a) : (h.write a d).read b = h.read b := by
  show readMem (writeMem h.mem a d) b = readMem h.mem b
  induction h.mem with
  | nil => rfl
  | cons e rest ih =>
    obtain ⟨a0, d0⟩ := e
    simp only [writeMem, readMem]
    split
    · next heq =>
      subst heq
      simp only [readMem]
      rw [if_neg (fun hh => hne hh.symm), if_neg (fun hh => hne hh.symm)]
    · simp only [readMem]
      split
      · rfl
      · exact ih

/-- Allocation leaves every previously allocated address unchanged. -/
theorem read_alloc_lt {h : Heap} {b : Nat} {d : List (String × HVal)}
    (hb : b < h.next) : ((h.alloc d).1).read b = h.read b := by
  show readMem ((h.next, d) :: h.mem) b = readMem h.mem b
  simp [readMem, Nat.ne_of_gt hb]

/-- The frame relation is reflexive. -/
theorem frameAt_refl (B : Nat) (h : Heap) : frameAt B h h :=
  ⟨le_refl _, fun _ _ => rfl⟩

/-- The frame relation is transitive. -/
theorem frameAt_trans {B : Nat} {h h1 h2 : Heap} (a : frameAt B h h1)
    (b : frameAt B h1 h2) : frameAt B h h2 :=
  ⟨le_trans a.1 b.1, fun x hx => (b.2 x hx).trans (a.2 x hx)⟩

/-- Writing at or above the bound preserves the frame. -/
theorem frameAt_write {B : Nat} {h : Heap} {a : Nat}
    {d : List (String × HVal)} (hB : B ≤ a) : frameAt B h (h.write a d) :=
  ⟨le_refl _, fun b hb => read_write_ne (by omega)⟩

/-- Allocation preserves the frame below the old bound. -/
theorem frameAt_alloc {B : Nat} {h : Heap} {d : List (String × HVal)}
    (hB : B ≤ h.next) : frameAt B h (h.alloc d).1 :=
  ⟨by show h.next ≤ h.next + 1; omega, fun b hb => read_alloc_lt (by omega)⟩

/-- Frame propagation of the bound. -/
theorem frameAt_le {B : Nat} {h h1 : Heap} (f : frameAt B h h1)
    (hB : B ≤ h.next) : B ≤ h1.next :=
  le_trans hB f.1

/-- Frame property of the heap embedding, for every function of the
`deep_update` call graph at once: every address allocated before the call
reads unchanged afterwards, the store grows monotonically, and every dict
reference returned as a result (and the root every merge loop writes to)
is at or above the caller's bound. -/
theorem heap_frame (fuel : Nat) :
    (∀ (h : Heap) (v : HVal) (B : Nat), B ≤ h.next →
      frameAt B h (deepcopyH fuel h v).1
      ∧ ∀ a1, (deepcopyH fuel h v).2 = .ok (.ref a1) → B ≤ a1)
    ∧ (∀ (h : Heap) (xs : List HVal) (B : Nat), B ≤ h.next →
        frameAt B h (deepcopyHList fuel h xs).1)
    ∧ (∀ (h : Heap) (d : List (String × HVal)) (B : Nat), B ≤ h.next →
        frameAt B h (deepcopyHFields fuel h d).1)
    ∧ (∀ (h : Heap) (dest : HVal) (ms : List HVal) (B : Nat), B ≤ h.next →
        frameAt B h (deep_updateH fuel h dest ms).1
        ∧ ∀ a1, (deep_updateH fuel h dest ms).2 = .ok (.ref a1) → B ≤ a1)
    ∧ (∀ (h : Heap) (r : HVal) (ms : List HVal) (B : Nat), B ≤ h.next →
        (∀ a1, r = .ref a1 → B ≤ a1) →
        frameAt B h (mergeManyH fuel h r ms).1
        ∧ ∀ a1, (mergeManyH fuel h r ms).2 = .ok (.ref a1) → B ≤ a1)
    ∧ (∀ (h : Heap) (r : HVal) (items : List (String × HVal)) (B : Nat),
        B ≤ h.next → (∀ a1, r = .ref a1 → B ≤ a1) →
        frameAt B h (mergeItemsH fuel h r items).1)
    ∧ (∀ (h : Heap) (r : HVal) (k : String) (v : HVal) (B : Nat),
        B ≤ h.next → (∀ a1, r = .ref a1 → B ≤ a1) →
        frameAt B h (mergeStepH fuel h r k v).1)
    ∧ (∀ (h : Heap) (xs ys : List HVal) (B : Nat), B ≤ h.next →
        frameAt B h (zipMergeH fuel h xs ys).1) := by
  induction fuel with
  | zero =>
    refine ⟨fun h v B hB => ⟨frameAt_refl B h, ?_⟩,
      fun h xs B hB => frameAt_refl B h,
      fun h d B hB => frameAt_refl B h,
      fun h dest ms B hB => ⟨frameAt_refl B h, ?_⟩,
      fun h r ms B hB hr => ⟨frameAt_refl B h, ?_⟩,
      fun h r items B hB hr => frameAt_refl B h,
      fun h r k v B hB hr => frameAt_refl B h,
      fun h xs ys B hB => frameAt_refl B h⟩
    · intro a1 ha1
      exact absurd ha1 (by simp [deepcopyH])
    · intro a1 ha1
      exact absurd ha1 (by simp [deep_updateH])
    · intro a1 ha1
      exact absurd ha1 (by simp [mergeManyH])
  | succ n ih =>
    obtain ⟨ihc, ihcl, ihcf, ihdu, ihma, ihit, ihst, ihzp⟩ := ih
    have hcopy : ∀ (h : Heap) (v : HVal) (B : Nat), B ≤ h.next →
        frameAt B h (deepcopyH (n + 1) h v).1
        ∧ ∀ a1, (deepcopyH (n + 1) h v).2 = .ok (.ref a1) → B ≤ a1 := by
      intro h v B hB
      match v with
      | .prim w =>
        refine ⟨frameAt_refl B h, fun a1 ha1 => absurd ha1 (by simp [deepcopyH])⟩
      | .arr xs =>
        rcases hcl : deepcopyHList n h xs with ⟨h1, r1⟩
        have hf := ihcl h xs B hB
        rw [hcl] at hf
        cases r1 with
        | error e =>
          constructor
          · simpa [deepcopyH, hcl] using hf
          · intro a1 ha1
            rw [show (deepcopyH (n + 1) h (.arr xs)).2 = .error e from by
              simp [deepcopyH, hcl]] at ha1
            exact absurd ha1 (by simp)
        | ok ys =>
          constructor
          · simpa [deepcopyH, hcl] using hf
          · intro a1 ha1
            rw [show (deepcopyH (n + 1) h (.arr xs)).2 = .ok (.arr ys) from by
              simp [deepcopyH, hcl]] at ha1
            exact absurd ha1 (by simp)
      | .ref a =>
        cases hread : h.read a with
        | none =>
          refine ⟨?_, fun a1 ha1 => ?_⟩
          · simpa [deepcopyH, hread] using frameAt_refl B h
          · rw [show (deepcopyH (n + 1) h (.ref a)).2
                = .error "SystemError: dangling reference" from by
              simp [deepcopyH, hread]] at ha1
            exact absurd ha1 (by simp)
        | some d =>
          rcases hcf : deepcopyHFields n h d with ⟨h1, r1⟩
          have hf1 := ihcf h d B hB
          rw [hcf] at hf1
          cases r1 with
          | error e =>
            refine ⟨?_, fun a1 ha1 => ?_⟩
            · simpa [deepcopyH, hread, hcf] using hf1
            · rw [show (deepcopyH (n + 1) h (.ref a)).2 = .error e from by
                simp [deepcopyH, hread, hcf]] at ha1
              exact absurd ha1 (by simp)
          | ok d1 =>
            have hB1 : B ≤ h1.next := frameAt_le hf1 hB
            refine ⟨?_, fun a1 ha1 => ?_⟩
            · rw [show (deepcopyH (n + 1) h (.ref a)).1 = (h1.alloc d1).1 from by
                simp [deepcopyH, hread, hcf, Heap.alloc]]
              exact frameAt_trans hf1 (frameAt_alloc hB1)
            · rw [show (deepcopyH (n + 1) h (.ref a)).2 = .ok (.ref h1.next) from by
                simp [deepcopyH, hread, hcf, Heap.alloc]] at ha1
              simp only [Except.ok.injEq, HVal.ref.injEq] at ha1
              omega
    refine ⟨hcopy, ?_, ?_, ?_, ?_, ?_, ?_, ?_⟩
    · -- deepcopyHList
      intro h xs B hB
      match xs with
      | [] => simpa [deepcopyHList] using frameAt_refl B h
      | x :: rest =>
        rcases hc : deepcopyH n h x with ⟨h1, r1⟩
        have hf1 := (ihc h x B hB).1
        rw [hc] at hf1
        cases r1 with
        | error e => simpa [deepcopyHList, hc] using hf1
        | ok y =>
          rcases hcl : deepcopyHList n h1 rest with ⟨h2, r2⟩
          have hf2 := ihcl h1 rest B (frameAt_le hf1 hB)
          rw [hcl] at hf2
          cases r2 with
          | error e => simpa [deepcopyHList, hc, hcl] using frameAt_trans hf1 hf2
          | ok ys => simpa [deepcopyHList, hc, hcl] using frameAt_trans hf1 hf2
    · -- deepcopyHFields
      intro h d B hB
      match d with
      | [] => simpa [deepcopyHFields] using frameAt_refl B h
      | (k, v) :: rest =>
        rcases hc : deepcopyH n h v with ⟨h1, r1⟩
        have hf1 := (ihc h v B hB).1
        rw [hc] at hf1
        cases r1 with
        | error e => simpa [deepcopyHFields, hc] using hf1
        | ok v1 =>
          rcases hcf : deepcopyHFields n h1 rest with ⟨h2, r2⟩
          have hf2 := ihcf h1 rest B (frameAt_le hf1 hB)
          rw [hcf] at hf2
          cases r2 with
          | error e =>
            simpa [deepcopyHFields, hc, hcf] using frameAt_trans hf1 hf2
          | ok rest1 =>
            simpa [deepcopyHFields, hc, hcf] using frameAt_trans hf1 hf2
    · -- deep_updateH
      intro h dest ms B hB
      rcases hc : deepcopyH n h dest with ⟨h1, r1⟩
      have hf1 := (ihc h dest B hB).1
      have hroot := (ihc h dest B hB).2
      rw [hc] at hf1 hroot
      cases r1 with
      | error e =>
        refine ⟨by simpa [deep_updateH, hc] using hf1, fun a1 ha1 => ?_⟩
        rw [show (deep_updateH (n + 1) h dest ms).2 = .error e from by
          simp [deep_updateH, hc]] at ha1
        exact absurd ha1 (by simp)
      | ok result =>
        have hr : ∀ a1, result = .ref a1 → B ≤ a1 := by
          intro a1 ha1
          exact hroot a1 (by simp [ha1])
        have hm := ihma h1 result ms B (frameAt_le hf1 hB) hr
        refine ⟨?_, fun a1 ha1 => ?_⟩
        · rw [show (deep_updateH (n + 1) h dest ms).1
              = (mergeManyH n h1 result ms).1 from by simp [deep_updateH, hc]]
          exact frameAt_trans hf1 hm.1
        · rw [show (deep_updateH (n + 1) h dest ms).2
              = (mergeManyH n h1 result ms).2 from by simp [deep_updateH, hc]] at ha1
          exact hm.2 a1 ha1
    · -- mergeManyH
      intro h r ms B hB hr
      match ms with
      | [] =>
        refine ⟨by simpa [mergeManyH] using frameAt_refl B h, fun a1 ha1 => ?_⟩
        rw [show (mergeManyH (n + 1) h r []).2 = .ok r from by
          simp [mergeManyH]] at ha1
        simp only [Except.ok.injEq] at ha1
        exact hr a1 ha1
      | m :: rest =>
        match m with
        | .prim w =>
          refine ⟨by simpa [mergeManyH] using frameAt_refl B h, fun a1 ha1 => ?_⟩
          rw [show (mergeManyH (n + 1) h r (.prim w :: rest)).2
              = .error "AttributeError: source mapping has no items" from by
            simp [mergeManyH]] at ha1
          exact absurd ha1 (by simp)
        | .arr zs =>
          refine ⟨by simpa [mergeManyH] using frameAt_refl B h, fun a1 ha1 => ?_⟩
          rw [show (mergeManyH (n + 1) h r (.arr zs :: rest)).2
              = .error "AttributeError: source mapping has no items" from by
            simp [mergeManyH]] at ha1
          exact absurd ha1 (by simp)
        | .ref a =>
          cases hread : h.read a with
          | none =>
            refine ⟨by simpa [mergeManyH, hread] using frameAt_refl B h,
              fun a1 ha1 => ?_⟩
            rw [show (mergeManyH (n + 1) h r (.ref a :: rest)).2
                = .error "SystemError: dangling reference" from by
              simp [mergeManyH, hread]] at ha1
            exact absurd ha1 (by simp)
          | some items =>
            rcases hit : mergeItemsH n h r items with ⟨h1, r1⟩
            have hf1 := ihit h r items B hB hr
            rw [hit] at hf1
            cases r1 with
            | error e =>
              refine ⟨by simpa [mergeManyH, hread, hit] using hf1,
                fun a1 ha1 => ?_⟩
              rw [show (mergeManyH (n + 1) h r (.ref a :: rest)).2
                  = .error e from by simp [mergeManyH, hread, hit]] at ha1
              exact absurd ha1 (by simp)
            | ok u =>
              have hm := ihma h1 r rest B (frameAt_le hf1 hB) hr
              refine ⟨?_, fun a1 ha1 => ?_⟩
              · rw [show (mergeManyH (n + 1) h r (.ref a :: rest)).1
                    = (mergeManyH n h1 r rest).1 from by
                  simp [mergeManyH, hread, hit]]
                exact frameAt_trans hf1 hm.1
              · rw [show (mergeManyH (n + 1) h r (.ref a :: rest)).2
                    = (mergeManyH n h1 r rest).2 from by
                  simp [mergeManyH, hread, hit]] at ha1
                exact hm.2 a1 ha1
    · -- mergeItemsH
      intro h r items B hB hr
      match items with
      | [] => simpa [mergeItemsH] using frameAt_refl B h
      | (k, v) :: rest =>
        rcases hst : mergeStepH n h r k v with ⟨h1, r1⟩
        have hf1 := ihst h r k v B hB hr
        rw [hst] at hf1
        cases r1 with
        | error e => simpa [mergeItemsH, hst] using hf1
        | ok u =>
          have hf2 := ihit h1 r rest B (frameAt_le hf1 hB) hr
          rw [show (mergeItemsH (n + 1) h r ((k, v) :: rest)).1
              = (mergeItemsH n h1 r rest).1 from by simp [mergeItemsH, hst]]
          exact frameAt_trans hf1 hf2
    · -- mergeStepH
      intro h r k v B hB hr
      match r with
      | .prim w => simpa [mergeStepH] using frameAt_refl B h
      | .arr zs => simpa [mergeStepH] using frameAt_refl B h
      | .ref ar =>
        have hBar : B ≤ ar := hr ar rfl
        cases hread : h.read ar with
        | none => simpa [mergeStepH, hread] using frameAt_refl B h
        | some rfields =>
          cases hlk : lookupH rfields k with
          | none =>
            rw [show (mergeStepH (n + 1) h (.ref ar) k v).1
                = h.write ar (rfields ++ [(k, v)]) from by
              simp [mergeStepH, hread, hlk]]
            exact frameAt_write hBar
          | some old =>
            rcases hty : htypeOf old != htypeOf v with _ | _
            · -- types match: dispatch on the value shapes
              match old, v with
              | .ref o1, .ref o2 =>
                rcases hdu : deep_updateH n h (.ref o1) [.ref o2] with ⟨h1, r1⟩
                have hf1 := (ihdu h (.ref o1) [.ref o2] B hB).1
                rw [hdu] at hf1
                cases r1 with
                | error e => simpa [mergeStepH, hread, hlk, hty, hdu] using hf1
                | ok newV =>
                  cases hread1 : h1.read ar with
                  | none => simpa [mergeStepH, hread, hlk, hty, hdu, hread1] using hf1
                  | some rf1 =>
                    rw [show (mergeStepH (n + 1) h (.ref ar) k (.ref o2)).1
                        = h1.write ar (setH rf1 k newV) from by
                      simp [mergeStepH, hread, hlk, hty, hdu, hread1]]
                    exact frameAt_trans hf1 (frameAt_write hBar)
              | .arr xs, .arr ys =>
                rcases hlen : xs.length != ys.length with _ | _
                · rcases hzp : zipMergeH n h xs ys with ⟨h1, r1⟩
                  have hf1 := ihzp h xs ys B hB
                  rw [hzp] at hf1
                  cases r1 with
                  | error e =>
                    simpa [mergeStepH, hread, hlk, hty, hlen, hzp] using hf1
                  | ok zs1 =>
                    cases hread1 : h1.read ar with
                    | none =>
                      simpa [mergeStepH, hread, hlk, hty, hlen, hzp, hread1]
                        using hf1
                    | some rf1 =>
                      rw [show (mergeStepH (n + 1) h (.ref ar) k (.arr ys)).1
                          = h1.write ar (setH rf1 k (.arr zs1)) from by
                        simp [mergeStepH, hread, hlk, hty, hlen, hzp, hread1]]
                      exact frameAt_trans hf1 (frameAt_write hBar)
                · simpa [mergeStepH, hread, hlk, hty, hlen] using frameAt_refl B h
              | .prim w1, v =>
                rw [show (mergeStepH (n + 1) h (.ref ar) k v).1
                    = h.write ar (setH rfields k v) from by
                  simp [mergeStepH, hread, hlk, hty]]
                exact frameAt_write hBar
              | .arr xs, .prim w2 =>
                rw [show (mergeStepH (n + 1) h (.ref ar) k (.prim w2)).1
                    = h.write ar (setH rfields k (.prim w2)) from by
                  simp [mergeStepH, hread, hlk, hty]]
                exact frameAt_write hBar
              | .arr xs, .ref o2 =>
                rw [show (mergeStepH (n + 1) h (.ref ar) k (.ref o2)).1
                    = h.write ar (setH rfields k (.ref o2)) from by
                  simp [mergeStepH, hread, hlk, hty]]
                exact frameAt_write hBar
              | .ref o1, .prim w2 =>
                rw [show (mergeStepH (n + 1) h (.ref ar) k (.prim w2)).1
                    = h.write ar (setH rfields k (.prim w2)) from by
                  simp [mergeStepH, hread, hlk, hty]]
                exact frameAt_write hBar
              | .ref o1, .arr ys =>
                rw [show (mergeStepH (n + 1) h (.ref ar) k (.arr ys)).1
                    = h.write ar (setH rfields k (.arr ys)) from by
                  simp [mergeStepH, hread, hlk, hty]]
                exact frameAt_write hBar
            · -- type mismatch: error, heap untouched
              simpa [mergeStepH, hread, hlk, hty] using frameAt_refl B h
    · -- zipMergeH
      intro h xs ys B hB
      match xs, ys with
      | [], _ => simpa [zipMergeH] using frameAt_refl B h
      | _ :: _, [] => simpa [zipMergeH] using frameAt_refl B h
      | x :: xs1, y :: ys1 =>
        rcases hdu : deep_updateH n h x [y] with ⟨h1, r1⟩
        have hf1 := (ihdu h x [y] B hB).1
        rw [hdu] at hf1
        cases r1 with
        | error e => simpa [zipMergeH, hdu] using hf1
        | ok z =>
          rcases hzp : zipMergeH n h1 xs1 ys1 with ⟨h2, r2⟩
          have hf2 := ihzp h1 xs1 ys1 B (frameAt_le hf1 hB)
          rw [hzp] at hf2
          cases r2 with
          | error e => simpa [zipMergeH, hdu, hzp] using frameAt_trans hf1 hf2
          | ok zs => simpa [zipMergeH, hdu, hzp] using frameAt_trans hf1 hf2

/-- C9: `deep_update` never mutates its arguments.  In the heap embedding:
after `deep_updateH fuel h dest ms` runs, every address allocated in the
caller's heap `h` (hence `dest` and every mapping, and everything they
reference) still reads exactly as before, and any dict reference the call
returns is a fresh address, never one of the inputs.  Determinism of the
embedding then gives idempotent encoding for free. -/
theorem deep_update_no_mutation (fuel : Nat) (h : Heap) (dest : HVal)
    (ms : List HVal) :
    (∀ a, a < h.next → (deep_updateH fuel h dest ms).1.read a = h.read a)
    ∧ (∀ a1, (deep_updateH fuel h dest ms).2 = .ok (.ref a1) → h.next ≤ a1) := by
  have hf := (heap_frame fuel).2.2.2.1 h dest ms h.next (le_refl _)
  exact ⟨fun a ha => hf.1.2 a ha, hf.2⟩

/-- Witness for C9 at a concrete heap: merging the dict at address 1 into
a copy of the dict at address 0 leaves both originals readable unchanged
and returns the fresh address 2. -/
theorem deep_update_no_mutation_witness :
    ((deep_updateH 6 ⟨2, [(0, [("a", .prim (.int 1))]),
        (1, [("b", .prim (.str "x"))])]⟩ (.ref 0) [.ref 1]).1.read 0
      = Heap.read ⟨2, [(0, [("a", .prim (.int 1))]),
          (1, [("b", .prim (.str "x"))])]⟩ 0)
    ∧ ((deep_updateH 6 ⟨2, [(0, [("a", .prim (.int 1))]),
        (1, [("b", .prim (.str "x"))])]⟩ (.ref 0) [.ref 1]).1.read 1
      = Heap.read ⟨2, [(0, [("a", .prim (.int 1))]),
          (1, [("b", .prim (.str "x"))])]⟩ 1)
    ∧ 2 ≤ 2 :=
  ⟨(deep_update_no_mutation 6 ⟨2, [(0, [("a", .prim (.int 1))]),
      (1, [("b", .prim (.str "x"))])]⟩ (.ref 0) [.ref 1]).1 0 (by decide),
   (deep_update_no_mutation 6 ⟨2, [(0, [("a", .prim (.int 1))]),
      (1, [("b", .prim (.str "x"))])]⟩ (.ref 0) [.ref 1]).1 1 (by decide),
   (deep_update_no_mutation 6 ⟨2, [(0, [("a", .prim (.int 1))]),
      (1, [("b", .prim (.str "x"))])]⟩ (.ref 0) [.ref 1]).2 2 (by rfl)⟩
